import Mathlib

/-!
Verification of the Overseer passive-reconnaissance pipeline.

Strings from the Python source are modelled as `List Char` (ASCII case
folding); Python `None`-able values as `Option`; Python `dict`s as
insertion-ordered association lists with overwrite-on-repeat semantics;
network I/O as explicit outcome oracles passed to each function.  Every
definition is translated from the corresponding function in `src/`.
-/

/-- Python `str.strip()` whitespace test (ASCII whitespace set). -/
def isPySpace (c : Char) : Bool :=
  c = ' ' || c = '\t' || c = '\n' || c = '\r' || c = '\x0b' || c = '\x0c'

/-- ASCII lower-casing of one character, as Python `str.lower()` acts on ASCII. -/
def lowerChar (c : Char) : Char :=
  if 'A' ≤ c ∧ c ≤ 'Z' then Char.ofNat (c.toNat + 32) else c

/-- Python `str.lower()` on a whole string. -/
def lowerStr (s : List Char) : List Char := s.map lowerChar

/-- Python `str.strip()`: drop leading and trailing whitespace. -/
def stripStr (s : List Char) : List Char :=
  ((s.dropWhile isPySpace).reverse.dropWhile isPySpace).reverse

/-- Python `str.split(sep)` for a one-character separator: `"".split(c) = [""]`,
empty segments are kept. -/
def splitOnChar (sep : Char) : List Char → List (List Char)
  | [] => [[]]
  | c :: rest =>
    if c = sep then [] :: splitOnChar sep rest
    else
      match splitOnChar sep rest with
      | [] => [[c]]
      | seg :: segs => (c :: seg) :: segs

/-- Python substring test `pat in s`. -/
def containsSub (pat s : List Char) : Bool :=
  s.tails.any (fun t => pat.isPrefixOf t)

/-- `[a-z0-9]` character class of the validation regex in
`CTLogEnumerator._clean_subdomain`. -/
def isLowerAlnum (c : Char) : Bool :=
  ('a' ≤ c ∧ c ≤ 'z') || ('0' ≤ c ∧ c ≤ '9')

/-- `[a-z0-9\-.]` character class of the validation regex. -/
def isDomainMid (c : Char) : Bool :=
  isLowerAlnum c || c = '-' || c = '.'

/-- Helper for `matchesDomainChars`: all chars in `[a-z0-9\-.]` except the last,
which must be `[a-z0-9]`. -/
def matchesDomainTail : List Char → Bool
  | [] => false
  | [c] => isLowerAlnum c
  | c :: rest => isDomainMid c && matchesDomainTail rest

/-- Full match of the Python regex `^[a-z0-9][a-z0-9\-\.]*[a-z0-9]$` from
`CTLogEnumerator._clean_subdomain`: at least two characters, first and last
alphanumeric, everything in between drawn from `[a-z0-9\-.]`. -/
def matchesDomainChars : List Char → Bool
  | [] => false
  | [_] => false
  | c :: rest => isLowerAlnum c && matchesDomainTail rest

/-- Python `name.replace('*.', '')`: delete every (left-to-right,
non-overlapping) occurrence of the two-character pattern `*.`. -/
def replaceStarDot : List Char → List Char
  | '*' :: '.' :: rest => replaceStarDot rest
  | c :: rest => c :: replaceStarDot rest
  | [] => []

/-- `CTLogEnumerator._clean_subdomain` (src/modules/ct_enum.py, lines 186-210):
strip whitespace and lower-case; if the name starts with `*`, delete all `*.`
occurrences; reject unless the result ends with the target domain, differs from
it, and matches `^[a-z0-9][a-z0-9\-\.]*[a-z0-9]$`. -/
def clean_subdomain (name domain : List Char) : Option (List Char) :=
  let n0 := lowerStr (stripStr name)
  let n := if n0.head? = some '*' then replaceStarDot n0 else n0
  if domain.isSuffixOf n then
    if n = domain then none
    else if matchesDomainChars n then some n
    else none
  else none

/-- The normalization/acceptance rule as worded by the spec (§8): after
whitespace trimming, lower-casing and wildcard stripping, the candidate is
accepted iff it ends with the target domain, is not exactly the target domain,
and matches the allowed character pattern; when accepted, the normalized
lower-case name is returned. -/
def clean_subdomain_spec (name domain : List Char) : Option (List Char) :=
  let n0 := lowerStr (stripStr name)
  let n := if n0.head? = some '*' then replaceStarDot n0 else n0
  if domain.isSuffixOf n ∧ n ≠ domain ∧ matchesDomainChars n then some n else none

/-! ## Risk classification (src/modules/map_generator.py, `get_marker_color`) -/

/-- Fragment lists copied from the branch conditions of `get_marker_color`. -/
def awsFrags : List (List Char) :=
  ["amazon".data, "aws".data, "ec2".data, "amazonaws".data]

def googleFrags : List (List Char) :=
  ["google".data, "gcp".data, "cloud platform".data]

def microsoftFrags : List (List Char) :=
  ["microsoft".data, "azure".data]

def cdnFrags : List (List Char) :=
  ["cloudflare".data, "akamai".data, "fastly".data, "cdn".data,
   "edgecast".data, "incapsula".data]

def vpsFrags : List (List Char) :=
  ["digitalocean".data, "linode".data, "vultr".data, "ovh".data,
   "hetzner".data, "contabo".data]

def brIspFrags : List (List Char) :=
  ["vivo".data, "claro".data, "tim".data, "oi ".data, "net virtua".data, "gvt".data]

def usIspFrags : List (List Char) :=
  ["comcast".data, "verizon".data, "at&t".data, "spectrum".data, "cox".data]

/-- Python `any(f in s for f in frags)`. -/
def anyFragIn (frags : List (List Char)) (s : List Char) : Bool :=
  frags.any (fun f => containsSub f s)

/-- `get_marker_color` (src/modules/map_generator.py, lines 103-138): lower-cases
the organization and ISP strings, concatenates them, and walks a fixed
`if/elif` chain of substring tests; returns the marker color string. -/
def get_marker_color (org isp : List Char) : List Char :=
  let org_lower := lowerStr org ++ lowerStr isp
  if anyFragIn awsFrags org_lower then "green".data
  else if anyFragIn googleFrags org_lower then "green".data
  else if anyFragIn microsoftFrags org_lower then "green".data
  else if anyFragIn cdnFrags org_lower then "orange".data
  else if anyFragIn vpsFrags org_lower then "blue".data
  else if anyFragIn brIspFrags org_lower then "red".data
  else if anyFragIn usIspFrags org_lower then "red".data
  else "red".data

/-- Risk tiers of the spec; the map legend in map_generator.py lines 173-177
identifies green=SAFE, orange=LOW, blue=MED, red=HIGH. -/
inductive RiskTier where
  | Safe
  | Low
  | Medium
  | High
deriving DecidableEq

/-- Marker color to risk tier, per the legend (map_generator.py lines 173-177). -/
def tierOfColor (c : List Char) : RiskTier :=
  if c = "green".data then RiskTier.Safe
  else if c = "orange".data then RiskTier.Low
  else if c = "blue".data then RiskTier.Medium
  else RiskTier.High

/-- The risk classification function of the spec:
`classify(org, isp)` = tier of the marker color computed by
`get_marker_color`. -/
def classify (org isp : List Char) : RiskTier :=
  tierOfColor (get_marker_color org isp)

/-- Any cloud fragment (the three green branches of `get_marker_color`) hits. -/
def cloudHit (s : List Char) : Bool :=
  anyFragIn awsFrags s || anyFragIn googleFrags s || anyFragIn microsoftFrags s

/-! ## DNS resolution (src/modules/dns_resolver.py) -/

/-- `DNSResult` dataclass (dns_resolver.py lines 19-26). -/
structure DNSResult where
  subdomain : List Char
  ip : Option (List Char)
  is_alive : Bool
  cname : Option (List Char) := none
  error : Option (List Char) := none
deriving DecidableEq

/-- Outcome of the A-record lookup in `resolve_single`: either answers (the
first of which the code stringifies into `ip`), or one of the dnspython
exceptions caught there. -/
inductive ARecOutcome where
  | answers (first : List Char)
  | nxdomain
  | noAnswer
  | timedOut
  | otherExc (msg : List Char)
deriving DecidableEq

/-- Outcome of the best-effort CNAME lookup in `resolve_single`. -/
inductive CnameOutcome where
  | answers (first : List Char)
  | failed
deriving DecidableEq

/-- `DNSResolver.resolve_single` (dns_resolver.py lines 62-99), with the two
network lookups replaced by their outcomes: on A-record success the CNAME
lookup result is attached (its failure ignored); each caught exception maps to
the error string the code stores. -/
def resolve_single (subdomain : List Char) (a : ARecOutcome) (c : CnameOutcome) :
    DNSResult :=
  match a with
  | .answers ip =>
    let cname := match c with
      | .answers cn => some cn
      | .failed => none
    { subdomain := subdomain, ip := some ip, is_alive := true, cname := cname }
  | .nxdomain =>
    { subdomain := subdomain, ip := none, is_alive := false, error := some "NXDOMAIN".data }
  | .noAnswer =>
    { subdomain := subdomain, ip := none, is_alive := false, error := some "NoAnswer".data }
  | .timedOut =>
    { subdomain := subdomain, ip := none, is_alive := false, error := some "Timeout".data }
  | .otherExc m =>
    { subdomain := subdomain, ip := none, is_alive := false, error := some m }

/-- The DNS record types queried by `resolve_single`. -/
inductive DNSQueryKind where
  | A
  | CNAME
deriving DecidableEq

/-- The sequence of lookups `resolve_single` issues for one name: always one A
query first; exactly one CNAME query afterwards, and only when the A query
succeeded. -/
def resolve_single_queries (a : ARecOutcome) : List DNSQueryKind :=
  match a with
  | .answers _ => [DNSQueryKind.A, DNSQueryKind.CNAME]
  | _ => [DNSQueryKind.A]

/-! Association lists with Python-`dict` semantics: assignment overwrites the
value of an existing key in place, otherwise appends. -/

/-- `d[k] = v` on a Python dict. -/
def dictInsert {α β : Type} [DecidableEq α] (k : α) (v : β) :
    List (α × β) → List (α × β)
  | [] => [(k, v)]
  | (k', v') :: rest =>
    if k = k' then (k, v) :: rest else (k', v') :: dictInsert k v rest

/-- `d.get(k)` on a Python dict. -/
def dictLookup {α β : Type} [DecidableEq α] (k : α) : List (α × β) → Option β
  | [] => none
  | (k', v) :: rest => if k = k' then some v else dictLookup k rest

/-- `k in d` on a Python dict. -/
def dictHasKey {α β : Type} [DecidableEq α] (k : α) (d : List (α × β)) : Bool :=
  d.any (fun kv => kv.1 = k)

/-- The key list of a Python dict, in insertion order. -/
def dictKeys {α β : Type} (d : List (α × β)) : List α := d.map Prod.fst

/-- `s.add(x)` on a Python set, modelled as an insertion-ordered
duplicate-free list. -/
def setAdd {α : Type} [DecidableEq α] (acc : List α) (x : α) : List α :=
  if x ∈ acc then acc else acc ++ [x]

/-- `s.update(t)` on Python sets. -/
def setUnion {α : Type} [DecidableEq α] (s t : List α) : List α :=
  t.foldl setAdd s

/-- Python `list(set(xs))` as used for deduplication: order of a Python set is
arbitrary; this model keeps first occurrences, which has the same element set. -/
def pyDedup {α : Type} [DecidableEq α] (l : List α) : List α :=
  l.foldl setAdd []

/-- Configuration held by `DNSResolver.__init__` (dns_resolver.py lines 35-60);
`timeout` only parameterizes the network calls whose outcomes the worker
oracle supplies, and `max_workers` only bounds scheduling, which is captured
below by quantifying over completion orders. -/
structure DNSResolverCfg where
  timeout : Rat
  max_workers : Nat

/-- What `resolve_bulk` stores for a completed future: the worker's
`DNSResult` on normal completion, or — when `future.result()` re-raises — the
catch-all record built in its `except` branch (dns_resolver.py lines 138-144). -/
def futureRecord (subdomain : List Char) (out : Except (List Char) DNSResult) :
    DNSResult :=
  match out with
  | .ok r => r
  | .error e =>
    { subdomain := subdomain, ip := none, is_alive := false, error := some e }

/-- `DNSResolver.resolve_bulk` (dns_resolver.py lines 101-155): submits one
task per input name and collects `results[subdomain] = ...` as futures
complete.  `worker` gives each task's outcome (normal result or raised
exception); `order` is the completion order delivered by `as_completed`,
a permutation of the task indices.  The progress bar and the final statistics
printout have no effect on the returned dict and are omitted. -/
def resolve_bulk (cfg : DNSResolverCfg)
    (worker : List Char → Except (List Char) DNSResult)
    (subdomains : List (List Char)) (order : List Nat) :
    List (List Char × DNSResult) :=
  order.foldl
    (fun results i =>
      match subdomains.get? i with
      | some sub => dictInsert sub (futureRecord sub (worker sub)) results
      | none => results)
    []

/-! ## Geolocation (src/modules/geo_intel.py) -/

/-- `GeoData` dataclass (geo_intel.py lines 18-34).  The address type is a
parameter since the code treats addresses as opaque dict keys; `lat`/`lon`
are decimal JSON numbers passed through unchanged, modelled as rationals. -/
structure GeoData (α : Type) where
  ip : α
  country : Option (List Char) := none
  country_code : Option (List Char) := none
  region : Option (List Char) := none
  city : Option (List Char) := none
  lat : Option Rat := none
  lon : Option Rat := none
  isp : Option (List Char) := none
  org : Option (List Char) := none
  as_number : Option (List Char) := none
  success : Bool := false
deriving DecidableEq

/-- One element of the JSON array returned by the ip-api batch endpoint, with
the fields `locate_batch` reads. -/
structure GeoItem (α : Type) where
  query : α
  status_success : Bool
  country : Option (List Char) := none
  country_code : Option (List Char) := none
  region : Option (List Char) := none
  city : Option (List Char) := none
  lat : Option Rat := none
  lon : Option Rat := none
  isp : Option (List Char) := none
  org : Option (List Char) := none
  as_number : Option (List Char) := none
deriving DecidableEq

/-- Outcome of one batch POST in `locate_batch`: a parsed JSON array, or any
exception (network error, non-2xx status, malformed body). -/
inductive BatchOutcome (α : Type) where
  | ok (items : List (GeoItem α))
  | fail
deriving DecidableEq

/-- The `GeoData` that `locate_batch` stores for one response item
(geo_intel.py lines 142-157). -/
def geoOfItem {α : Type} (it : GeoItem α) : GeoData α :=
  if it.status_success then
    { ip := it.query, country := it.country, country_code := it.country_code,
      region := it.region, city := it.city, lat := it.lat, lon := it.lon,
      isp := it.isp, org := it.org, as_number := it.as_number, success := true }
  else
    { ip := it.query, success := false }

/-- `GeoData(ip=ip, success=False)`: the all-empty failure record. -/
def geoFail {α : Type} (ip : α) : GeoData α := { ip := ip, success := false }

/-- Helper for `geoBatches`; the fuel argument only bounds the recursion depth
(any fuel ≥ the list length gives the same value, since each step strictly
shortens a nonempty list). -/
def geoBatchesAux {α : Type} : Nat → List α → List (List α)
  | _, [] => []
  | 0, _ :: _ => []
  | fuel + 1, x :: xs => ((x :: xs).take 100) :: geoBatchesAux fuel ((x :: xs).drop 100)

/-- The batch split `[unique_ips[i:i+100] for i in range(0, len(unique_ips), 100)]`
(geo_intel.py line 115, `BATCH_SIZE = 100`). -/
def geoBatches {α : Type} (l : List α) : List (List α) :=
  geoBatchesAux l.length l

/-- `RATE_LIMIT_DELAY` is 1.5 s; the Booleans below record whether that sleep
ran after each batch. -/
def geoRateDelay : Rat := 3 / 2

/-- The `for batch_idx, batch in enumerate(batches)` loop of `locate_batch`
(geo_intel.py lines 125-171).  `oracle` gives each batch POST's outcome.
On success every response item is stored keyed by its `query` field, then —
still inside the `try` — the inter-batch sleep runs iff `idx < total - 1`.
On exception every address of the batch not already present is stored as a
failure record, and no sleep runs.  Returns the results dict plus, per batch,
whether the sleep after it executed. -/
def geoLoop {α : Type} [DecidableEq α] (oracle : Nat → BatchOutcome α)
    (idx total : Nat) (batches : List (List α)) (res : List (α × GeoData α)) :
    List (α × GeoData α) × List Bool :=
  match batches with
  | [] => (res, [])
  | batch :: rest =>
    match oracle idx with
    | .ok items =>
      let res' := items.foldl (fun r it => dictInsert it.query (geoOfItem it) r) res
      let out := geoLoop oracle (idx + 1) total rest res'
      (out.1, decide (idx < total - 1) :: out.2)
    | .fail =>
      let res' := batch.foldl
        (fun r ip => if dictHasKey ip r then r else r ++ [(ip, geoFail ip)]) res
      let out := geoLoop oracle (idx + 1) total rest res'
      (out.1, false :: out.2)

/-- `GeoIntelligence.locate_batch` (geo_intel.py lines 96-181): deduplicate,
split into batches of 100, run the batch loop.  Second component: per-batch
sleep indicators. -/
def locate_batch {α : Type} [DecidableEq α] (oracle : Nat → BatchOutcome α)
    (ips : List α) : List (α × GeoData α) × List Bool :=
  let unique_ips := pyDedup ips
  let batches := geoBatches unique_ips
  geoLoop oracle 0 batches.length batches []

/-- The entries contributed to the results dict by one batch, assuming fresh
keys: a successful batch stores one `geoOfItem` per response item; a failed
batch stores one `geoFail` per address of the batch. -/
def batchContrib {α : Type} (o : BatchOutcome α) (batch : List α) :
    List (α × GeoData α) :=
  match o with
  | .ok items => items.map (fun it => (it.query, geoOfItem it))
  | .fail => batch.map (fun ip => (ip, geoFail ip))

/-! ## CT log enumeration (src/modules/ct_enum.py) -/

/-- The body of a crt.sh HTTP response as `_query_crtsh` consumes it: empty
text, JSON that fails to parse (`ValueError`), or a parsed JSON array whose
entries are reduced to their `name_value` strings (the only field read). -/
inductive CrtshBody where
  | empty
  | invalidJson
  | json (nameValues : List (List Char))
deriving DecidableEq

/-- Outcome of one `session.get` in `_query_crtsh`: a timeout, another
requests-level error, or an HTTP response with a status code and body. -/
inductive CrtshOutcome where
  | timedOut
  | reqError
  | response (status : Nat) (body : CrtshBody)
deriving DecidableEq

/-- `MAX_RETRIES` (ct_enum.py line 32). -/
def crtshMaxRetries : Nat := 3

/-- `RETRY_DELAY` in seconds (ct_enum.py line 33). -/
def crtshRetryDelay : Nat := 2

/-- The recurring pattern `clean_name = self._clean_subdomain(name, domain);
if clean_name: subdomains.add(clean_name)` shared by all three providers. -/
def addCleaned (domain : List Char) (acc : List (List Char)) (nm : List Char) :
    List (List Char) :=
  match clean_subdomain nm domain with
  | some c => setAdd acc c
  | none => acc

/-- The parse loop of `_query_crtsh`'s success path (ct_enum.py lines 104-111):
split each `name_value` on newlines, clean each candidate, and add the accepted
ones to the set. -/
def parseCrtEntries (nameValues : List (List Char)) (domain : List Char) :
    List (List Char) :=
  nameValues.foldl
    (fun acc nv => (splitOnChar '\n' nv).foldl (addCleaned domain) acc)
    []

/-- Observable behavior of one `_query_crtsh` call: the subdomain set it
returns, the sleep durations it performed (in order), and how many attempts
it made. -/
structure CrtshRun where
  found : List (List Char)
  sleeps : List Nat
  attempts : Nat
deriving DecidableEq

/-- The retry loop of `_query_crtsh` (ct_enum.py lines 84-127), from attempt
index `a` up to `MAX_RETRIES`.  Mirrors the control flow exactly:
status 503 sleeps `RETRY_DELAY * (attempt + 1)` and continues (no sleep on the
last attempt); `raise_for_status` turns any status ≥ 400 into a
`RequestException`, which `break`s; empty body returns; invalid JSON
(`ValueError`) `break`s; a parsed body returns the cleaned set; a timeout
sleeps the constant `RETRY_DELAY` and continues (no sleep on the last
attempt); any other requests error `break`s. -/
def crtshFrom (oracle : Nat → CrtshOutcome) (domain : List Char) :
    Nat → Nat → CrtshRun
  | 0, _ => { found := [], sleeps := [], attempts := 0 }
  | remaining + 1, a =>
    match oracle a with
    | .timedOut =>
      if a < crtshMaxRetries - 1 then
        let r := crtshFrom oracle domain remaining (a + 1)
        { found := r.found, sleeps := crtshRetryDelay :: r.sleeps,
          attempts := r.attempts + 1 }
      else { found := [], sleeps := [], attempts := 1 }
    | .reqError => { found := [], sleeps := [], attempts := 1 }
    | .response status body =>
      if status = 503 then
        if a < crtshMaxRetries - 1 then
          let r := crtshFrom oracle domain remaining (a + 1)
          { found := r.found, sleeps := crtshRetryDelay * (a + 1) :: r.sleeps,
            attempts := r.attempts + 1 }
        else { found := [], sleeps := [], attempts := 1 }
      else if 400 ≤ status then { found := [], sleeps := [], attempts := 1 }
      else
        match body with
        | .empty => { found := [], sleeps := [], attempts := 1 }
        | .invalidJson => { found := [], sleeps := [], attempts := 1 }
        | .json nameValues =>
          { found := parseCrtEntries nameValues domain, sleeps := [], attempts := 1 }

/-- `CTLogEnumerator._query_crtsh` (ct_enum.py lines 80-127): run the retry
loop over the attempt range `range(MAX_RETRIES)` starting at attempt 0; the
first argument of `crtshFrom` counts the attempts remaining. -/
def query_crtsh (oracle : Nat → CrtshOutcome) (domain : List Char) : CrtshRun :=
  crtshFrom oracle domain crtshMaxRetries 0

/-- Outcome of the single CertSpotter request in `_query_certspotter`: failure
(any exception, all silently swallowed) or a parsed JSON array whose entries
are reduced to their `dns_names` lists (the only field read). -/
inductive CertspotterOutcome where
  | failure
  | ok (entries : List (List (List Char)))
deriving DecidableEq

/-- `CTLogEnumerator._query_certspotter` (ct_enum.py lines 129-155): one
best-effort request; every `dns_names` entry is cleaned and accepted names are
collected into a set. -/
def query_certspotter (o : CertspotterOutcome) (domain : List Char) :
    List (List Char) :=
  match o with
  | .failure => []
  | .ok entries =>
    entries.foldl
      (fun acc dnsNames => dnsNames.foldl (addCleaned domain) acc)
      []

/-- Outcome of the single HackerTarget request in `_query_hackertarget`:
failure (any exception) or the plaintext response body. -/
inductive HackertargetOutcome where
  | failure
  | ok (body : List Char)
deriving DecidableEq

/-- `CTLogEnumerator._query_hackertarget` (ct_enum.py lines 157-184): split the
stripped plaintext body into lines; for each line containing a comma and not
containing `error` (case-insensitively), clean the part before the first comma
and collect accepted names. -/
def query_hackertarget (o : HackertargetOutcome) (domain : List Char) :
    List (List Char) :=
  match o with
  | .failure => []
  | .ok body =>
    (splitOnChar '\n' (stripStr body)).foldl
      (fun acc line =>
        if (',' ∈ line) ∧ ¬ containsSub "error".data (lowerStr line) then
          addCleaned domain acc (stripStr (line.takeWhile (fun c => c ≠ ',')))
        else acc)
      []

/-- `CTLogEnumerator.enumerate` (ct_enum.py lines 42-78): query crt.sh; if
fewer than 10 names so far, union in CertSpotter's results; if still fewer
than 5, union in HackerTarget's results. -/
def ct_enumerate (crtO : Nat → CrtshOutcome) (csO : CertspotterOutcome)
    (htO : HackertargetOutcome) (domain : List Char) : List (List Char) :=
  let subs1 := (query_crtsh crtO domain).found
  let subs2 := if subs1.length < 10 then setUnion subs1 (query_certspotter csO domain)
               else subs1
  let subs3 := if subs2.length < 5 then setUnion subs2 (query_hackertarget htO domain)
               else subs2
  subs3

/-! ## Orchestrator (src/overseer.py) -/

/-- Lexicographic code-point comparison of strings, the order Python's
`sorted` uses on `str`. -/
def lexLe : List Char → List Char → Bool
  | [], _ => true
  | _ :: _, [] => false
  | a :: xs, b :: ys => if a = b then lexLe xs ys else decide (a < b)

/-- One row of the aggregated DataFrame built in `run_reconnaissance`
(overseer.py lines 201-215). -/
structure AggRecord where
  subdomain : List Char
  ip : List Char
  cname : Option (List Char)
  country : Option (List Char)
  country_code : Option (List Char)
  region : Option (List Char)
  city : Option (List Char)
  lat : Option Rat
  lon : Option Rat
  isp : Option (List Char)
  org : Option (List Char)
  as_number : Option (List Char)
  geo_success : Bool
deriving DecidableEq

/-- The pipeline phases of `run_reconnaissance` that involve work beyond
printing (overseer.py phases 1-5). -/
inductive Phase where
  | enumeration
  | resolution
  | geolocation
  | aggregation
  | rendering
deriving DecidableEq

/-- `args.target.lower().strip()` (overseer.py line 135). -/
def recon_target (rawTarget : List Char) : List Char :=
  stripStr (lowerStr rawTarget)

/-- The alive filter of overseer.py lines 172-175: `result.is_alive and
result.ip`, the latter a Python truthiness test (None and the empty string
are falsy). -/
def aliveCond (r : DNSResult) : Bool :=
  r.is_alive &&
    match r.ip with
    | some p => ¬ p.isEmpty
    | none => false

/-- `subdomains.add(target)` followed by `sorted(list(subdomains))`
(overseer.py lines 157-158): the name list handed to the resolver, sorted
lexicographically. -/
def recon_subdomain_list (target : List Char) (ctSet : List (List Char)) :
    List (List Char) :=
  List.insertionSort (fun a b => lexLe a b = true)
    (if target ∈ ctSet then ctSet else ctSet ++ [target])

/-- `run_reconnaissance` (overseer.py lines 128-253), with each network
boundary replaced by its outcome oracle: CT enumeration, then — unless the
enumerated set is empty — DNS resolution of the sorted set plus the bare
target, then — unless no host is alive — geolocation of the deduplicated
alive addresses, aggregation into records, and (unless `--no-map` or no point
has coordinates) map rendering.  Returns the aggregated records (`None` on
either insufficient-data early return, before any later phase runs) and the
list of phases that executed. -/
def run_reconnaissance (rawTarget : List Char)
    (crtO : Nat → CrtshOutcome) (csO : CertspotterOutcome)
    (htO : HackertargetOutcome) (cfg : DNSResolverCfg)
    (aO : List Char → ARecOutcome) (cO : List Char → CnameOutcome)
    (order : List Nat) (geoO : Nat → BatchOutcome (List Char)) (noMap : Bool) :
    Option (List AggRecord) × List Phase :=
  let target := recon_target rawTarget
  let subdomains := ct_enumerate crtO csO htO target
  if subdomains.isEmpty then (none, [Phase.enumeration])
  else
    let subdomain_list := recon_subdomain_list target subdomains
    let dns_results := resolve_bulk cfg
      (fun sub => Except.ok (resolve_single sub (aO sub) (cO sub)))
      subdomain_list order
    let alive_hosts := dns_results.filter (fun kv => aliveCond kv.2)
    if alive_hosts.isEmpty then (none, [Phase.enumeration, Phase.resolution])
    else
      let unique_ips := pyDedup (alive_hosts.map (fun kv => kv.2.ip.getD []))
      let geo_results := (locate_batch geoO unique_ips).1
      let records := alive_hosts.map (fun kv =>
        let ip := kv.2.ip.getD []
        let geo := (dictLookup ip geo_results).getD (geoFail ip)
        { subdomain := kv.1, ip := ip, cname := kv.2.cname,
          country := geo.country, country_code := geo.country_code,
          region := geo.region, city := geo.city, lat := geo.lat,
          lon := geo.lon, isp := geo.isp, org := geo.org,
          as_number := geo.as_number, geo_success := geo.success : AggRecord })
      let map_points := records.filter (fun r => r.lat.isSome && r.lon.isSome)
      let phases := [Phase.enumeration, Phase.resolution, Phase.geolocation,
        Phase.aggregation] ++
        (if ¬ noMap ∧ ¬ map_points.isEmpty then [Phase.rendering] else [])
      (some records, phases)

/-- How the `try` block of `main` (overseer.py lines 319-341) ends:
`run_reconnaissance` returned a value, a `KeyboardInterrupt` arrived, or some
other exception escaped. -/
inductive RunTermination where
  | value (r : Option (List AggRecord))
  | interrupt
  | excRaised (msg : List Char)

/-- The caller-visible outcome of `main` (overseer.py lines 313-341). -/
inductive MainOutcome where
  | completed
  | insufficientData
  | cancelled
  | crashed (msg : List Char)
deriving DecidableEq

/-- `main` (overseer.py lines 313-341): a returned DataFrame prints the
completion panel; a `None` return prints the insufficient-data panel and calls
`sys.exit(1)`; `KeyboardInterrupt` exits 130; any other exception is
re-raised (a crash). -/
def mainOutcome : RunTermination → MainOutcome
  | .value (some _) => .completed
  | .value none => .insufficientData
  | .interrupt => .cancelled
  | .excRaised m => .crashed m

/-! ## Statement-level helper definitions -/

/-- Whether a batch POST outcome was a success. -/
def isOkB {α : Type} (o : BatchOutcome α) : Bool :=
  match o with
  | .ok _ => true
  | .fail => false

/-- The concatenation of the per-batch contributions of the geolocation loop,
batch `k` using `oracle (idx + k)`. -/
def geoContribs {α : Type} (oracle : Nat → BatchOutcome α) (idx : Nat) :
    List (List α) → List (α × GeoData α)
  | [] => []
  | b :: rest => batchContrib (oracle idx) b ++ geoContribs oracle (idx + 1) rest

/-- A transient provider condition as claimed for the primary-source retry
policy: a timeout, or a temporarily-unavailable signal (any 5xx status). -/
def crtshClaimTransient (o : CrtshOutcome) : Prop :=
  o = CrtshOutcome.timedOut ∨
    ∃ s body, o = CrtshOutcome.response s body ∧ 500 ≤ s ∧ s ≤ 599

/-- A hard provider error as claimed for the primary-source retry policy: an
invalid JSON payload (on an otherwise successful response), or a
non-rate-limit 4xx HTTP failure. -/
def crtshClaimHard (o : CrtshOutcome) : Prop :=
  (∃ s, o = CrtshOutcome.response s CrtshBody.invalidJson ∧ s < 400) ∨
    (∃ s body, o = CrtshOutcome.response s body ∧ 400 ≤ s ∧ s < 500 ∧ s ≠ 429)

/-- The primary-source retry policy exactly as the spec claims it: up to 3
attempts; every transient outcome (timeout or 5xx) of a non-final attempt is
retried after a backoff sleep of `RETRY_DELAY * attemptNumber`; every hard
error ends the provider immediately. -/
def crtshRetryClaim : Prop :=
  ∀ (oracle : Nat → CrtshOutcome) (domain : List Char),
    (query_crtsh oracle domain).attempts ≤ crtshMaxRetries ∧
    (∀ i, i < (query_crtsh oracle domain).attempts → i + 1 < crtshMaxRetries →
      crtshClaimTransient (oracle i) →
      i + 1 < (query_crtsh oracle domain).attempts ∧
      (query_crtsh oracle domain).sleeps.get? i
        = some (crtshRetryDelay * (i + 1))) ∧
    (∀ i, i < (query_crtsh oracle domain).attempts → crtshClaimHard (oracle i) →
      (query_crtsh oracle domain).attempts = i + 1)

/-- The inter-batch delay policy exactly as the spec claims it: between every
pair of consecutive batch submissions — including after a failed batch — the
mandatory sleep runs. -/
def interBatchDelayClaim : Prop :=
  ∀ (ips : List Nat) (oracle : Nat → BatchOutcome Nat) (i : Nat),
    i + 1 < (geoBatches (pyDedup ips)).length →
    (locate_batch oracle ips).2.get? i = some true

/-- `name` lies strictly beneath `domain` in the DNS tree: it is a nonempty
label sequence, then a dot, then `domain`. -/
def strictlyBeneath (name domain : List Char) : Prop :=
  ∃ p : List Char, p ≠ [] ∧ name = p ++ '.' :: domain

/-- The enumeration invariant exactly as the spec claims it: every name the
enumerator returns lies strictly beneath the target domain. -/
def ctProperSubdomainClaim : Prop :=
  ∀ (crtO : Nat → CrtshOutcome) (csO : CertspotterOutcome)
    (htO : HackertargetOutcome) (domain name : List Char),
    name ∈ ct_enumerate crtO csO htO domain → strictlyBeneath name domain

/-- 150 example addresses for the partial-batch-failure scenario. -/
def c4ExampleIps : List Nat := List.range 150

/-- Batch oracle for the scenario: the first batch succeeds and echoes its
100 queries with `status = success`; the second batch's POST fails. -/
def c4ExampleOracle : Nat → BatchOutcome Nat := fun i =>
  if i = 0 then
    BatchOutcome.ok ((List.range 100).map (fun q => { query := q, status_success := true }))
  else BatchOutcome.fail

/-- Whether a crt.sh attempt outcome is an HTTP 503 response. -/
def is503 (o : CrtshOutcome) : Bool :=
  match o with
  | CrtshOutcome.response s _ => s == 503
  | _ => false

/-- The outcomes the code actually retries: a timeout, or exactly a 503
response (ct_enum.py lines 91-95 and 116-119). -/
def crtshCodeTransient (o : CrtshOutcome) : Prop :=
  o = CrtshOutcome.timedOut ∨ is503 o = true

/-- The outcomes the code actually aborts on (`break`): a requests-level
error, any HTTP status ≥ 400 other than 503 (`raise_for_status`), or invalid
JSON in a successful response (ct_enum.py lines 97, 120-125). -/
def crtshCodeHard (o : CrtshOutcome) : Prop :=
  o = CrtshOutcome.reqError ∨
    (∃ s body, o = CrtshOutcome.response s body ∧ 400 ≤ s ∧ s ≠ 503) ∨
    (∃ s, o = CrtshOutcome.response s CrtshBody.invalidJson ∧ s < 400)

/-! ## Theorems -/

theorem tierOfColor_green : tierOfColor "green".data = RiskTier.Safe := by decide

theorem tierOfColor_orange : tierOfColor "orange".data = RiskTier.Low := by decide

theorem tierOfColor_blue : tierOfColor "blue".data = RiskTier.Medium := by decide

theorem tierOfColor_red : tierOfColor "red".data = RiskTier.High := by decide

/-- C1: `_clean_subdomain` accepts a raw candidate iff, after whitespace
trimming, lower-casing and wildcard stripping, the result ends with the
target domain, is not exactly the target domain, and matches
`[a-z0-9][a-z0-9\-.]*[a-z0-9]`, in which case it returns the normalized
lower-case name, otherwise nothing; for target `example.com`,
`*.example.com` is stripped to `example.com` and rejected,
`WWW.Example.com` is accepted as `www.example.com`, and
`notexample.org` is rejected. -/
theorem c1_clean_subdomain_normalization :
    (∀ name domain : List Char,
      clean_subdomain name domain = clean_subdomain_spec name domain) ∧
    clean_subdomain "*.example.com".data "example.com".data = none ∧
    clean_subdomain "WWW.Example.com".data "example.com".data
      = some "www.example.com".data ∧
    clean_subdomain "notexample.org".data "example.com".data = none := by
  refine ⟨?_, by decide, by decide, by decide⟩
  intro name domain
  simp only [clean_subdomain, clean_subdomain_spec]
  split_ifs <;> simp_all

/-- C2: the risk classification is a pure function into
{Safe, Low, Medium, High} evaluated by fixed first-match-wins precedence over
case-insensitive substring matching against the concatenation of the
organization and ISP text: cloud fragments give Safe; else CDN fragments give
Low; else VPS fragments give Medium; everything else — including
residential-ISP fragments and unknown organizations — gives High; with the
three quoted examples, and re-running on identical input yields the
identical tier. -/
theorem c2_classify_precedence :
    (∀ org isp : List Char,
      (classify org isp = RiskTier.Safe ↔
        cloudHit (lowerStr org ++ lowerStr isp) = true) ∧
      (classify org isp = RiskTier.Low ↔
        cloudHit (lowerStr org ++ lowerStr isp) = false ∧
        anyFragIn cdnFrags (lowerStr org ++ lowerStr isp) = true) ∧
      (classify org isp = RiskTier.Medium ↔
        cloudHit (lowerStr org ++ lowerStr isp) = false ∧
        anyFragIn cdnFrags (lowerStr org ++ lowerStr isp) = false ∧
        anyFragIn vpsFrags (lowerStr org ++ lowerStr isp) = true) ∧
      (classify org isp = RiskTier.High ↔
        cloudHit (lowerStr org ++ lowerStr isp) = false ∧
        anyFragIn cdnFrags (lowerStr org ++ lowerStr isp) = false ∧
        anyFragIn vpsFrags (lowerStr org ++ lowerStr isp) = false) ∧
      classify org isp = classify org isp) ∧
    classify "Amazon Web Services".data "Comcast Inc".data = RiskTier.Safe ∧
    classify "Cloudflare, Inc.".data "".data = RiskTier.Low ∧
    classify "Acme Hosting LLC".data "".data = RiskTier.High := by
  refine ⟨?_, by decide, by decide, by decide⟩
  intro org isp
  cases h1 : anyFragIn awsFrags (lowerStr org ++ lowerStr isp) <;>
  cases h2 : anyFragIn googleFrags (lowerStr org ++ lowerStr isp) <;>
  cases h3 : anyFragIn microsoftFrags (lowerStr org ++ lowerStr isp) <;>
  cases h4 : anyFragIn cdnFrags (lowerStr org ++ lowerStr isp) <;>
  cases h5 : anyFragIn vpsFrags (lowerStr org ++ lowerStr isp) <;>
  cases h6 : anyFragIn brIspFrags (lowerStr org ++ lowerStr isp) <;>
  cases h7 : anyFragIn usIspFrags (lowerStr org ++ lowerStr isp) <;>
  simp only [classify, get_marker_color, cloudHit, h1, h2, h3, h4, h5, h6, h7,
    Bool.false_eq_true, if_false, if_true, Bool.or_self, Bool.false_or] <;> decide

theorem dictKeys_dictInsert {α β : Type} [DecidableEq α] (k : α) (v : β)
    (d : List (α × β)) :
    dictKeys (dictInsert k v d)
      = if k ∈ dictKeys d then dictKeys d else dictKeys d ++ [k] := by
  induction d with
  | nil => simp [dictInsert, dictKeys]
  | cons kv rest ih =>
    obtain ⟨k', v'⟩ := kv
    by_cases h : k = k'
    · subst h
      simp [dictInsert, dictKeys]
    · simp only [dictInsert, if_neg h, dictKeys, List.map_cons, List.mem_cons]
      simp only [dictKeys] at ih
      rw [ih]
      by_cases hm : k ∈ List.map Prod.fst rest
      · simp [hm, h]
      · simp [hm, h]

theorem mem_dictKeys_dictInsert {α β : Type} [DecidableEq α] (k x : α) (v : β)
    (d : List (α × β)) :
    x ∈ dictKeys (dictInsert k v d) ↔ x = k ∨ x ∈ dictKeys d := by
  rw [dictKeys_dictInsert]
  by_cases hm : k ∈ dictKeys d
  · simp [hm]
    intro hx
    subst hx
    tauto
  · simp [hm]
    tauto

theorem nodup_dictKeys_dictInsert {α β : Type} [DecidableEq α] (k : α) (v : β)
    (d : List (α × β)) (hd : (dictKeys d).Nodup) :
    (dictKeys (dictInsert k v d)).Nodup := by
  rw [dictKeys_dictInsert]
  by_cases hm : k ∈ dictKeys d
  · simpa [hm] using hd
  · simp [hm, List.nodup_append, hd]

theorem mem_dictInsert {α β : Type} [DecidableEq α] (k : α) (v : β)
    (d : List (α × β)) (kv : α × β) (h : kv ∈ dictInsert k v d) :
    kv = (k, v) ∨ kv ∈ d := by
  induction d with
  | nil => simpa [dictInsert] using h
  | cons hd' rest ih =>
    obtain ⟨k', v'⟩ := hd'
    by_cases hk : k = k'
    · subst hk
      simp [dictInsert] at h
      tauto
    · simp only [dictInsert, if_neg hk, List.mem_cons] at h
      rcases h with h | h
      · exact Or.inr (by simp [h])
      · rcases ih h with h' | h'
        · exact Or.inl h'
        · exact Or.inr (by simp [h'])

theorem dictLookup_dictInsert_self {α β : Type} [DecidableEq α] (k : α) (v : β)
    (d : List (α × β)) : dictLookup k (dictInsert k v d) = some v := by
  induction d with
  | nil => simp [dictInsert, dictLookup]
  | cons kv rest ih =>
    obtain ⟨k', v'⟩ := kv
    by_cases h : k = k'
    · subst h
      simp [dictInsert, dictLookup]
    · simp [dictInsert, dictLookup, h, ih]

theorem dictLookup_dictInsert_ne {α β : Type} [DecidableEq α] (k x : α) (v : β)
    (d : List (α × β)) (h : x ≠ k) :
    dictLookup x (dictInsert k v d) = dictLookup x d := by
  induction d with
  | nil => simp [dictInsert, dictLookup, h]
  | cons kv rest ih =>
    obtain ⟨k', v'⟩ := kv
    by_cases hk : k = k'
    · subst hk
      simp [dictInsert, dictLookup, h]
    · simp [dictInsert, dictLookup, hk, ih]

/-- One step of the `resolve_bulk` result collection. -/
theorem rb_step_eq (cfg : DNSResolverCfg)
    (worker : List Char → Except (List Char) DNSResult)
    (subdomains : List (List Char)) (order : List Nat) :
    resolve_bulk cfg worker subdomains order
      = order.foldl
        (fun results i =>
          match subdomains.get? i with
          | some sub => dictInsert sub (futureRecord sub (worker sub)) results
          | none => results)
        [] := rfl

theorem mem_keys_rbFold (worker : List Char → Except (List Char) DNSResult)
    (subdomains : List (List Char)) (order : List Nat)
    (acc : List (List Char × DNSResult)) (x : List Char) :
    x ∈ dictKeys (order.foldl
        (fun results i =>
          match subdomains.get? i with
          | some sub => dictInsert sub (futureRecord sub (worker sub)) results
          | none => results)
        acc)
      ↔ (∃ i ∈ order, subdomains.get? i = some x) ∨ x ∈ dictKeys acc := by
  induction order generalizing acc with
  | nil => simp
  | cons j rest ih =>
    simp only [List.foldl_cons]
    cases hj : subdomains.get? j with
    | none =>
      rw [ih]
      constructor
      · rintro (⟨i, hi, hix⟩ | hx)
        · exact Or.inl ⟨i, List.mem_cons_of_mem _ hi, hix⟩
        · exact Or.inr hx
      · rintro (⟨i, hi, hix⟩ | hx)
        · rcases List.mem_cons.mp hi with rfl | hi'
          · rw [hj] at hix
            cases hix
          · exact Or.inl ⟨i, hi', hix⟩
        · exact Or.inr hx
    | some s =>
      rw [ih]
      simp only [mem_dictKeys_dictInsert]
      constructor
      · rintro (⟨i, hi, hix⟩ | hx | hx)
        · exact Or.inl ⟨i, List.mem_cons_of_mem _ hi, hix⟩
        · exact Or.inl ⟨j, List.mem_cons_self _ _, by rw [hj, hx]⟩
        · exact Or.inr hx
      · rintro (⟨i, hi, hix⟩ | hx)
        · rcases List.mem_cons.mp hi with rfl | hi'
          · rw [hj] at hix
            injection hix with h
            exact Or.inr (Or.inl h.symm)
          · exact Or.inl ⟨i, hi', hix⟩
        · exact Or.inr (Or.inr hx)

theorem nodup_keys_rbFold (worker : List Char → Except (List Char) DNSResult)
    (subdomains : List (List Char)) (order : List Nat)
    (acc : List (List Char × DNSResult)) (hacc : (dictKeys acc).Nodup) :
    (dictKeys (order.foldl
        (fun results i =>
          match subdomains.get? i with
          | some sub => dictInsert sub (futureRecord sub (worker sub)) results
          | none => results)
        acc)).Nodup := by
  induction order generalizing acc with
  | nil => simpa
  | cons j rest ih =>
    simp only [List.foldl_cons]
    cases hj : subdomains.get? j with
    | none => exact ih acc hacc
    | some s => exact ih _ (nodup_dictKeys_dictInsert _ _ _ hacc)

theorem vals_rbFold (worker : List Char → Except (List Char) DNSResult)
    (subdomains : List (List Char)) (order : List Nat)
    (acc : List (List Char × DNSResult))
    (hacc : ∀ kv ∈ acc, kv.2 = futureRecord kv.1 (worker kv.1)) :
    ∀ kv ∈ (order.foldl
        (fun results i =>
          match subdomains.get? i with
          | some sub => dictInsert sub (futureRecord sub (worker sub)) results
          | none => results)
        acc),
      kv.2 = futureRecord kv.1 (worker kv.1) := by
  induction order generalizing acc with
  | nil => exact hacc
  | cons j rest ih =>
    simp only [List.foldl_cons]
    cases hj : subdomains.get? j with
    | none => exact ih acc hacc
    | some s =>
      refine ih _ ?_
      intro kv hkv
      rcases mem_dictInsert _ _ _ _ hkv with h | h
      · subst h
        rfl
      · exact hacc kv h

/-- C3: for every finite input name list, every concurrency bound K >= 1 and
every timeout (both held in the resolver configuration), `resolve_bulk`
returns a map whose key set equals the input set exactly — every input name
appears exactly once — for every completion order of the worker pool and
every worker behavior, including when every lookup fails and when a worker
raises (the exception is caught at the `future.result()` boundary and stored
as a failure record rather than propagated). -/
theorem c3_resolve_bulk_total (cfg : DNSResolverCfg) (hK : 1 ≤ cfg.max_workers)
    (worker : List Char → Except (List Char) DNSResult)
    (subdomains : List (List Char)) (order : List Nat)
    (horder : order.Perm (List.range subdomains.length)) :
    (∀ x, x ∈ dictKeys (resolve_bulk cfg worker subdomains order) ↔ x ∈ subdomains) ∧
    (dictKeys (resolve_bulk cfg worker subdomains order)).Nodup ∧
    (∀ kv ∈ resolve_bulk cfg worker subdomains order,
      kv.2 = futureRecord kv.1 (worker kv.1)) := by
  refine ⟨?_, ?_, ?_⟩
  · intro x
    rw [rb_step_eq, mem_keys_rbFold]
    simp only [dictKeys, List.map_nil, List.not_mem_nil, or_false]
    rw [List.mem_iff_get?]
    constructor
    · rintro ⟨i, _, hix⟩
      exact ⟨i, hix⟩
    · rintro ⟨i, hix⟩
      have hi : i < subdomains.length := by
        by_contra hle
        rw [List.get?_eq_none.mpr (by omega)] at hix
        cases hix
      exact ⟨i, horder.mem_iff.mpr (List.mem_range.mpr hi), hix⟩
  · rw [rb_step_eq]
    exact nodup_keys_rbFold _ _ _ _ (by simp [dictKeys])
  · rw [rb_step_eq]
    exact vals_rbFold _ _ _ _ (by simp)

/-- Witness for C3 at a concrete input: two names, reversed completion
order, every worker raising an exception. -/
theorem c3_witness :
    1 ≤ (DNSResolverCfg.mk 3 50).max_workers ∧
    ([1, 0] : List Nat).Perm
      (List.range ([['a'], ['b']] : List (List Char)).length) ∧
    ((∀ x, x ∈ dictKeys (resolve_bulk (DNSResolverCfg.mk 3 50)
        (fun _ => Except.error "boom".data) [['a'], ['b']] [1, 0])
        ↔ x ∈ ([['a'], ['b']] : List (List Char))) ∧
     (dictKeys (resolve_bulk (DNSResolverCfg.mk 3 50)
        (fun _ => Except.error "boom".data) [['a'], ['b']] [1, 0])).Nodup) := by
  refine ⟨by decide, by decide, ?_⟩
  have h := c3_resolve_bulk_total (DNSResolverCfg.mk 3 50) (by decide)
    (fun _ => Except.error "boom".data) [['a'], ['b']] [1, 0] (by decide)
  exact ⟨h.1, h.2.1⟩

/-- C8: single-name resolution produces exactly one of: on address-lookup
success a record with `is_alive = true` and no error; on NXDOMAIN
`is_alive = false` with error kind `NXDOMAIN` (the spec's NotFound); on
NoAnswer, error kind `NoAnswer`; on timeout, error kind `Timeout`; on any
other exception, the raw message.  The CNAME lookup is attempted exactly once,
only after a successful address lookup, and its failure is silently ignored,
leaving the alias empty. -/
theorem c8_resolve_single (subdomain : List Char) (a : ARecOutcome)
    (c : CnameOutcome) :
    (∀ ip, a = ARecOutcome.answers ip →
      resolve_single subdomain a c
        = { subdomain := subdomain, ip := some ip, is_alive := true,
            cname := match c with
              | CnameOutcome.answers cn => some cn
              | CnameOutcome.failed => none,
            error := none }) ∧
    (a = ARecOutcome.nxdomain →
      resolve_single subdomain a c
        = { subdomain := subdomain, ip := none, is_alive := false,
            cname := none, error := some "NXDOMAIN".data }) ∧
    (a = ARecOutcome.noAnswer →
      resolve_single subdomain a c
        = { subdomain := subdomain, ip := none, is_alive := false,
            cname := none, error := some "NoAnswer".data }) ∧
    (a = ARecOutcome.timedOut →
      resolve_single subdomain a c
        = { subdomain := subdomain, ip := none, is_alive := false,
            cname := none, error := some "Timeout".data }) ∧
    (∀ m, a = ARecOutcome.otherExc m →
      resolve_single subdomain a c
        = { subdomain := subdomain, ip := none, is_alive := false,
            cname := none, error := some m }) ∧
    ((∃ ip, a = ARecOutcome.answers ip) →
      resolve_single_queries a = [DNSQueryKind.A, DNSQueryKind.CNAME]) ∧
    ((¬ ∃ ip, a = ARecOutcome.answers ip) →
      resolve_single_queries a = [DNSQueryKind.A]) := by
  cases a <;> cases c <;>
    simp [resolve_single, resolve_single_queries]

/-- Witness for C8 at concrete inputs: a successful lookup with a failed
alias lookup, and a timed-out lookup. -/
theorem c8_witness :
    resolve_single "www.example.com".data
        (ARecOutcome.answers "203.0.113.5".data) CnameOutcome.failed
      = { subdomain := "www.example.com".data, ip := some "203.0.113.5".data,
          is_alive := true, cname := none, error := none } ∧
    resolve_single_queries (ARecOutcome.answers "203.0.113.5".data)
      = [DNSQueryKind.A, DNSQueryKind.CNAME] ∧
    resolve_single "x.example.com".data ARecOutcome.timedOut CnameOutcome.failed
      = { subdomain := "x.example.com".data, ip := none, is_alive := false,
          cname := none, error := some "Timeout".data } ∧
    resolve_single_queries ARecOutcome.timedOut = [DNSQueryKind.A] := by
  have h1 := c8_resolve_single "www.example.com".data
    (ARecOutcome.answers "203.0.113.5".data) CnameOutcome.failed
  have h2 := c8_resolve_single "x.example.com".data ARecOutcome.timedOut
    CnameOutcome.failed
  exact ⟨h1.1 _ rfl, h1.2.2.2.2.2.1 ⟨_, rfl⟩, h2.2.2.2.1 rfl,
    h2.2.2.2.2.2.2 (by rintro ⟨ip, h⟩; cases h)⟩

theorem mem_foldl_setAdd {α : Type} [DecidableEq α] (l : List α) (acc : List α)
    (x : α) : x ∈ l.foldl setAdd acc ↔ x ∈ acc ∨ x ∈ l := by
  induction l generalizing acc with
  | nil => simp
  | cons y rest ih =>
    simp only [List.foldl_cons, ih, setAdd]
    by_cases hy : y ∈ acc
    · simp only [hy, if_true, List.mem_cons]
      constructor
      · intro h
        tauto
      · rintro (h | rfl | h)
        · exact Or.inl h
        · exact Or.inl hy
        · exact Or.inr h
    · simp only [hy, if_false, List.mem_cons, List.mem_append,
        List.mem_singleton]
      tauto

theorem nodup_foldl_setAdd {α : Type} [DecidableEq α] (l : List α)
    (acc : List α) (hacc : acc.Nodup) : (l.foldl setAdd acc).Nodup := by
  induction l generalizing acc with
  | nil => simpa
  | cons y rest ih =>
    simp only [List.foldl_cons, setAdd]
    by_cases hy : y ∈ acc
    · simp only [hy, if_true]
      exact ih acc hacc
    · simp only [hy, if_false]
      exact ih _ (by simp [List.nodup_append, hacc, hy])

theorem mem_pyDedup {α : Type} [DecidableEq α] (l : List α) (x : α) :
    x ∈ pyDedup l ↔ x ∈ l := by
  simp [pyDedup, mem_foldl_setAdd]

theorem nodup_pyDedup {α : Type} [DecidableEq α] (l : List α) :
    (pyDedup l).Nodup := nodup_foldl_setAdd l [] (by simp)

theorem geoBatchesAux_flatten {α : Type} (fuel : Nat) (l : List α)
    (h : l.length ≤ fuel) : (geoBatchesAux fuel l).flatten = l := by
  induction fuel generalizing l with
  | zero =>
    cases l with
    | nil => simp [geoBatchesAux]
    | cons x xs => simp at h
  | succ n ih =>
    cases l with
    | nil => simp [geoBatchesAux]
    | cons x xs =>
      simp only [geoBatchesAux, List.flatten_cons]
      rw [ih ((x :: xs).drop 100) (by simp at h ⊢; omega)]
      exact List.take_append_drop 100 (x :: xs)

theorem geoBatches_flatten {α : Type} (l : List α) :
    (geoBatches l).flatten = l :=
  geoBatchesAux_flatten l.length l le_rfl

theorem dictKeys_append {α β : Type} (d1 d2 : List (α × β)) :
    dictKeys (d1 ++ d2) = dictKeys d1 ++ dictKeys d2 := by
  simp [dictKeys]

theorem dictHasKey_iff {α β : Type} [DecidableEq α] (k : α) (d : List (α × β)) :
    dictHasKey k d = true ↔ k ∈ dictKeys d := by
  simp [dictHasKey, dictKeys, List.any_eq_true]

theorem dictLookup_append_right {α β : Type} [DecidableEq α] (k : α)
    (d1 d2 : List (α × β)) (h : k ∉ dictKeys d1) :
    dictLookup k (d1 ++ d2) = dictLookup k d2 := by
  induction d1 with
  | nil => simp
  | cons kv rest ih =>
    obtain ⟨k', v'⟩ := kv
    simp only [dictKeys, List.map_cons, List.mem_cons] at h
    push_neg at h
    simp only [List.cons_append, dictLookup, if_neg h.1]
    exact ih (by simpa only [dictKeys] using h.2)

theorem dictLookup_append_left {α β : Type} [DecidableEq α] (k : α)
    (d1 d2 : List (α × β)) (v : β) (h : dictLookup k d1 = some v) :
    dictLookup k (d1 ++ d2) = some v := by
  induction d1 with
  | nil => simp [dictLookup] at h
  | cons kv rest ih =>
    obtain ⟨k', v'⟩ := kv
    by_cases hk : k = k'
    · subst hk
      simp [dictLookup] at h ⊢
      exact h
    · simp only [dictLookup, if_neg hk] at h
      simpa only [List.cons_append, dictLookup, if_neg hk] using ih h

theorem dictInsert_fresh {α β : Type} [DecidableEq α] (k : α) (v : β)
    (d : List (α × β)) (h : k ∉ dictKeys d) :
    dictInsert k v d = d ++ [(k, v)] := by
  induction d with
  | nil => simp [dictInsert]
  | cons kv rest ih =>
    obtain ⟨k', v'⟩ := kv
    simp only [dictKeys, List.map_cons, List.mem_cons] at h
    push_neg at h
    simp only [dictInsert, if_neg h.1, List.cons_append, List.cons.injEq,
      true_and]
    exact ih (by simpa only [dictKeys] using h.2)

theorem geo_ok_fold {α : Type} [DecidableEq α] (items : List (GeoItem α))
    (res : List (α × GeoData α))
    (hfresh : ∀ q ∈ items.map GeoItem.query, q ∉ dictKeys res)
    (hnd : (items.map GeoItem.query).Nodup) :
    items.foldl (fun r it => dictInsert it.query (geoOfItem it) r) res
      = res ++ items.map (fun it => (it.query, geoOfItem it)) := by
  induction items generalizing res with
  | nil => simp
  | cons it rest ih =>
    simp only [List.map_cons, List.nodup_cons] at hnd
    simp only [List.foldl_cons]
    rw [dictInsert_fresh _ _ _ (hfresh it.query (by simp))]
    rw [ih (res ++ [(it.query, geoOfItem it)])]
    · simp
    · intro q hq
      rw [dictKeys_append]
      simp only [List.mem_append, dictKeys, List.map_cons, List.map_nil,
        List.mem_singleton, not_or]
      refine ⟨hfresh q (by simp [hq]), ?_⟩
      intro hqe
      rw [hqe] at hq
      exact hnd.1 hq
    · exact hnd.2

theorem geo_fail_fold {α : Type} [DecidableEq α] (batch : List α)
    (res : List (α × GeoData α))
    (hfresh : ∀ ip ∈ batch, ip ∉ dictKeys res) (hnd : batch.Nodup) :
    batch.foldl
        (fun r ip => if dictHasKey ip r then r else r ++ [(ip, geoFail ip)]) res
      = res ++ batch.map (fun ip => (ip, geoFail ip)) := by
  induction batch generalizing res with
  | nil => simp
  | cons ip rest ih =>
    simp only [List.nodup_cons] at hnd
    simp only [List.foldl_cons]
    have hk : dictHasKey ip res = false := by
      rw [← Bool.not_eq_true, dictHasKey_iff]
      exact hfresh ip (by simp)
    rw [hk]
    simp only [Bool.false_eq_true, if_false]
    rw [ih (res ++ [(ip, geoFail ip)])]
    · simp
    · intro q hq
      rw [dictKeys_append]
      simp only [List.mem_append, dictKeys, List.map_cons, List.map_nil,
        List.mem_singleton, not_or]
      refine ⟨hfresh q (by simp [hq]), ?_⟩
      intro hqe
      rw [hqe] at hq
      exact hnd.1 hq
    · exact hnd.2

theorem dictKeys_batchContrib {α : Type} (o : BatchOutcome α) (batch : List α)
    (hecho : ∀ items, o = BatchOutcome.ok items
      → items.map GeoItem.query = batch) :
    dictKeys (batchContrib o batch) = batch := by
  cases o with
  | ok items =>
    have := hecho items rfl
    simp only [batchContrib, dictKeys, List.map_map]
    rw [← this]
    rfl
  | fail =>
    simp only [batchContrib, dictKeys, List.map_map]
    have hcomp : (Prod.fst ∘ fun ip : α => (ip, geoFail ip))
        = fun ip : α => ip := rfl
    rw [hcomp, List.map_id']

theorem geoLoop_results_eq {α : Type} [DecidableEq α]
    (oracle : Nat → BatchOutcome α) (batches : List (List α)) :
    ∀ (idx total : Nat) (res : List (α × GeoData α)),
    (∀ k items, oracle (idx + k) = BatchOutcome.ok items →
      items.map GeoItem.query = batches.getD k []) →
    (∀ b ∈ batches, b.Nodup) →
    batches.Pairwise List.Disjoint →
    (∀ b ∈ batches, ∀ x ∈ b, x ∉ dictKeys res) →
    (geoLoop oracle idx total batches res).1 = res ++ geoContribs oracle idx batches := by
  induction batches with
  | nil => intro idx total res _ _ _ _; simp [geoLoop, geoContribs]
  | cons b rest ih =>
    intro idx total res hecho hnd hdisj hres
    have hecho0 : ∀ items, oracle idx = BatchOutcome.ok items →
        items.map GeoItem.query = b := by
      intro items h
      have := hecho 0 items (by simpa using h)
      simpa using this
    have hechoS : ∀ k items, oracle (idx + 1 + k) = BatchOutcome.ok items →
        items.map GeoItem.query = rest.getD k [] := by
      intro k items h
      have := hecho (k + 1) items (by rw [show idx + (k + 1) = idx + 1 + k by omega]; exact h)
      simpa using this
    have hdisj' : rest.Pairwise List.Disjoint := (List.pairwise_cons.mp hdisj).2
    have hbdisj : ∀ b' ∈ rest, b.Disjoint b' := (List.pairwise_cons.mp hdisj).1
    cases ho : oracle idx with
    | ok items =>
      have hq : items.map GeoItem.query = b := hecho0 items ho
      simp only [geoLoop, ho]
      rw [geo_ok_fold items res (by rw [hq]; exact hres b (by simp))
        (by rw [hq]; exact hnd b (by simp))]
      rw [ih (idx + 1) total _ hechoS (fun b' hb' => hnd b' (by simp [hb']))
        hdisj' ?fresh]
      · simp only [geoContribs, batchContrib, ho, List.append_assoc]
      case fresh =>
        intro b' hb' x hx
        rw [dictKeys_append]
        simp only [List.mem_append, not_or]
        refine ⟨hres b' (by simp [hb']) x hx, ?_⟩
        intro hmem
        have : x ∈ b := by
          have : dictKeys (items.map fun it => (it.query, geoOfItem it))
              = items.map GeoItem.query := by
            simp only [dictKeys, List.map_map]
            rfl
          rw [this, hq] at hmem
          exact hmem
        exact hbdisj b' hb' this hx
    | fail =>
      simp only [geoLoop, ho]
      rw [geo_fail_fold b res (hres b (by simp)) (hnd b (by simp))]
      rw [ih (idx + 1) total _ hechoS (fun b' hb' => hnd b' (by simp [hb']))
        hdisj' ?fresh2]
      · simp only [geoContribs, batchContrib, ho, List.append_assoc]
      case fresh2 =>
        intro b' hb' x hx
        rw [dictKeys_append]
        simp only [List.mem_append, not_or]
        refine ⟨hres b' (by simp [hb']) x hx, ?_⟩
        intro hmem
        have : x ∈ b := by
          have : dictKeys (b.map fun ip => (ip, geoFail ip)) = b := by
            simp only [dictKeys, List.map_map]
            have hcomp : (Prod.fst ∘ fun ip : α => (ip, geoFail ip))
                = fun ip : α => ip := rfl
            rw [hcomp, List.map_id']
          rw [this] at hmem
          exact hmem
        exact hbdisj b' hb' this hx

theorem dictKeys_geoContribs {α : Type} (oracle : Nat → BatchOutcome α)
    (batches : List (List α)) :
    ∀ (idx : Nat),
    (∀ k items, oracle (idx + k) = BatchOutcome.ok items →
      items.map GeoItem.query = batches.getD k []) →
    dictKeys (geoContribs oracle idx batches) = batches.flatten := by
  induction batches with
  | nil => intro idx _; simp [geoContribs, dictKeys]
  | cons b rest ih =>
    intro idx hecho
    simp only [geoContribs, dictKeys_append, List.flatten_cons]
    rw [dictKeys_batchContrib (oracle idx) b
      (fun items h => by simpa using hecho 0 items (by simpa using h))]
    rw [ih (idx + 1) (fun k items h => by
      simpa using hecho (k + 1) items
        (by rw [show idx + (k + 1) = idx + 1 + k by omega]; exact h))]

theorem dictLookup_map_pair {α β : Type} [DecidableEq α] (l : List α)
    (f : α → β) (k : α) (hk : k ∈ l) :
    dictLookup k (l.map fun x => (x, f x)) = some (f k) := by
  induction l with
  | nil => cases hk
  | cons x rest ih =>
    by_cases h : k = x
    · subst h
      simp [dictLookup]
    · rcases List.mem_cons.mp hk with h' | h'
      · exact absurd h' h
      · simpa [dictLookup, h] using ih h'

theorem dictLookup_items {α : Type} [DecidableEq α] (items : List (GeoItem α))
    (hnd : (items.map GeoItem.query).Nodup) (it : GeoItem α) (hit : it ∈ items) :
    dictLookup it.query (items.map fun j => (j.query, geoOfItem j))
      = some (geoOfItem it) := by
  induction items with
  | nil => cases hit
  | cons j rest ih =>
    simp only [List.map_cons, List.nodup_cons] at hnd
    rcases List.mem_cons.mp hit with rfl | h'
    · simp [dictLookup]
    · have hne : it.query ≠ j.query := by
        intro he
        exact hnd.1 (he ▸ List.mem_map_of_mem GeoItem.query h')
      simpa [dictLookup, hne] using ih hnd.2 h'

theorem mem_getD_flatten {α : Type} (L : List (List α)) (i : Nat) (x : α)
    (h : x ∈ L.getD i []) : x ∈ L.flatten := by
  induction L generalizing i with
  | nil => simp at h
  | cons b rest ih =>
    cases i with
    | zero => simp at h ⊢; exact Or.inl h
    | succ i' =>
      simp only [List.getD_cons_succ] at h
      simp only [List.flatten_cons, List.mem_append]
      exact Or.inr (ih i' h)

theorem geoContribs_fail_lookup {α : Type} [DecidableEq α]
    (oracle : Nat → BatchOutcome α) (batches : List (List α)) :
    ∀ (idx i : Nat),
    (∀ k items, oracle (idx + k) = BatchOutcome.ok items →
      items.map GeoItem.query = batches.getD k []) →
    batches.Pairwise List.Disjoint →
    oracle (idx + i) = BatchOutcome.fail →
    ∀ ip ∈ batches.getD i [],
      dictLookup ip (geoContribs oracle idx batches) = some (geoFail ip) := by
  induction batches with
  | nil => intro idx i _ _ _ ip hip; simp at hip
  | cons b rest ih =>
    intro idx i hecho hdisj hfail ip hip
    have hecho0 : ∀ items, oracle idx = BatchOutcome.ok items →
        items.map GeoItem.query = b :=
      fun items h => by simpa using hecho 0 items (by simpa using h)
    have hechoS : ∀ k items, oracle (idx + 1 + k) = BatchOutcome.ok items →
        items.map GeoItem.query = rest.getD k [] :=
      fun k items h => by
        simpa using hecho (k + 1) items
          (by rw [show idx + (k + 1) = idx + 1 + k by omega]; exact h)
    cases i with
    | zero =>
      simp only [List.getD_cons_zero] at hip
      simp only [Nat.add_zero] at hfail
      simp only [geoContribs, batchContrib, hfail]
      exact dictLookup_append_left _ _ _ _ (dictLookup_map_pair b geoFail ip hip)
    | succ i' =>
      simp only [List.getD_cons_succ] at hip
      simp only [geoContribs]
      rw [dictLookup_append_right]
      · exact ih (idx + 1) i' hechoS (List.pairwise_cons.mp hdisj).2
          (by rw [show idx + 1 + i' = idx + (i' + 1) by omega]; exact hfail) ip hip
      · rw [dictKeys_batchContrib (oracle idx) b hecho0]
        intro hmem
        rcases List.mem_flatten.mp (mem_getD_flatten rest i' ip hip) with
          ⟨b', hb', hipb'⟩
        exact (List.pairwise_cons.mp hdisj).1 b' hb' hmem hipb'

theorem geoContribs_ok_lookup {α : Type} [DecidableEq α]
    (oracle : Nat → BatchOutcome α) (batches : List (List α)) :
    ∀ (idx i : Nat) (items : List (GeoItem α)),
    (∀ k its, oracle (idx + k) = BatchOutcome.ok its →
      its.map GeoItem.query = batches.getD k []) →
    (∀ b ∈ batches, b.Nodup) →
    batches.Pairwise List.Disjoint →
    oracle (idx + i) = BatchOutcome.ok items →
    ∀ it ∈ items,
      dictLookup it.query (geoContribs oracle idx batches)
        = some (geoOfItem it) := by
  induction batches with
  | nil =>
    intro idx i items hecho _ _ hok it hit
    have : items.map GeoItem.query = [] := by simpa using hecho i items hok
    rw [List.map_eq_nil_iff] at this
    subst this
    cases hit
  | cons b rest ih =>
    intro idx i items hecho hnd hdisj hok it hit
    have hecho0 : ∀ its, oracle idx = BatchOutcome.ok its →
        its.map GeoItem.query = b :=
      fun its h => by simpa using hecho 0 its (by simpa using h)
    have hechoS : ∀ k its, oracle (idx + 1 + k) = BatchOutcome.ok its →
        its.map GeoItem.query = rest.getD k [] :=
      fun k its h => by
        simpa using hecho (k + 1) its
          (by rw [show idx + (k + 1) = idx + 1 + k by omega]; exact h)
    cases i with
    | zero =>
      simp only [Nat.add_zero] at hok
      have hq : items.map GeoItem.query = b := hecho0 items hok
      simp only [geoContribs, batchContrib, hok]
      refine dictLookup_append_left _ _ _ _ ?_
      exact dictLookup_items items (by rw [hq]; exact hnd b (by simp)) it hit
    | succ i' =>
      have hokS : oracle (idx + 1 + i') = BatchOutcome.ok items := by
        rw [show idx + 1 + i' = idx + (i' + 1) by omega]
        exact hok
      have hq : items.map GeoItem.query = rest.getD i' [] := hechoS i' items hokS
      simp only [geoContribs]
      rw [dictLookup_append_right]
      · exact ih (idx + 1) i' items hechoS (fun b' hb' => hnd b' (by simp [hb']))
          (List.pairwise_cons.mp hdisj).2 hokS it hit
      · rw [dictKeys_batchContrib (oracle idx) b hecho0]
        intro hmem
        have hitq : it.query ∈ rest.getD i' [] := by
          rw [← hq]
          exact List.mem_map_of_mem GeoItem.query hit
        rcases List.mem_flatten.mp (mem_getD_flatten rest i' it.query hitq) with
          ⟨b', hb', hqb'⟩
        exact (List.pairwise_cons.mp hdisj).1 b' hb' hmem hqb'

theorem locate_batch_results_eq {α : Type} [DecidableEq α]
    (oracle : Nat → BatchOutcome α) (ips : List α)
    (hecho : ∀ k items, oracle k = BatchOutcome.ok items →
      items.map GeoItem.query = (geoBatches (pyDedup ips)).getD k []) :
    (locate_batch oracle ips).1
      = geoContribs oracle 0 (geoBatches (pyDedup ips)) := by
  have hflat : (geoBatches (pyDedup ips)).flatten = pyDedup ips :=
    geoBatches_flatten (pyDedup ips)
  have hnodup : (geoBatches (pyDedup ips)).flatten.Nodup := by
    rw [hflat]
    exact nodup_pyDedup ips
  rw [List.nodup_flatten] at hnodup
  have := geoLoop_results_eq oracle (geoBatches (pyDedup ips)) 0
    (geoBatches (pyDedup ips)).length []
    (fun k items h => hecho k items (by simpa using h))
    hnodup.1 hnodup.2 (by simp [dictKeys])
  simpa [locate_batch] using this

/-- C4: `locate_batch` first deduplicates the addresses and, provided the
provider echoes each batch's queries, returns a map total over the
deduplicated input set: every address of a batch whose bulk POST failed is
recorded as `success=false` with otherwise-empty fields (`geoFail`), while
every item of a successful batch is stored per the provider response
(`geoOfItem`). -/
theorem c4_locate_batch_total {α : Type} [DecidableEq α] (ips : List α)
    (oracle : Nat → BatchOutcome α)
    (hecho : ∀ k items, oracle k = BatchOutcome.ok items →
      items.map GeoItem.query = (geoBatches (pyDedup ips)).getD k []) :
    (∀ x, x ∈ dictKeys (locate_batch oracle ips).1 ↔ x ∈ ips) ∧
    (dictKeys (locate_batch oracle ips).1).Nodup ∧
    (∀ i, oracle i = BatchOutcome.fail →
      ∀ ip ∈ (geoBatches (pyDedup ips)).getD i [],
        dictLookup ip (locate_batch oracle ips).1 = some (geoFail ip)) ∧
    (∀ i items, oracle i = BatchOutcome.ok items →
      ∀ it ∈ items,
        dictLookup it.query (locate_batch oracle ips).1
          = some (geoOfItem it)) := by
  have hflat : (geoBatches (pyDedup ips)).flatten = pyDedup ips :=
    geoBatches_flatten (pyDedup ips)
  have hnodup : (geoBatches (pyDedup ips)).flatten.Nodup := by
    rw [hflat]
    exact nodup_pyDedup ips
  rw [List.nodup_flatten] at hnodup
  have hkeys : dictKeys (locate_batch oracle ips).1 = pyDedup ips := by
    rw [locate_batch_results_eq oracle ips hecho]
    rw [dictKeys_geoContribs oracle (geoBatches (pyDedup ips)) 0
      (fun k items h => hecho k items (by simpa using h))]
    exact hflat
  refine ⟨?_, ?_, ?_, ?_⟩
  · intro x
    rw [hkeys, mem_pyDedup]
  · rw [hkeys]
    exact nodup_pyDedup ips
  · intro i hfail ip hip
    rw [locate_batch_results_eq oracle ips hecho]
    exact geoContribs_fail_lookup oracle (geoBatches (pyDedup ips)) 0 i
      (fun k items h => hecho k items (by simpa using h)) hnodup.2
      (by simpa using hfail) ip hip
  · intro i items hok it hit
    rw [locate_batch_results_eq oracle ips hecho]
    exact geoContribs_ok_lookup oracle (geoBatches (pyDedup ips)) 0 i items
      (fun k its h => hecho k its (by simpa using h)) hnodup.1 hnodup.2
      (by simpa using hok) it hit

set_option maxRecDepth 40000 in
/-- Witness for C4 at the claim's concrete scenario: 150 addresses, batch
size 100, the second batch's query failing; all 150 keys are present, address
0 is recorded per the provider response and address 149 as a failure
record. -/
theorem c4_witness :
    (∀ x, x ∈ dictKeys (locate_batch c4ExampleOracle c4ExampleIps).1
      ↔ x ∈ c4ExampleIps) ∧
    dictLookup 149 (locate_batch c4ExampleOracle c4ExampleIps).1
      = some (geoFail 149) ∧
    dictLookup 0 (locate_batch c4ExampleOracle c4ExampleIps).1
      = some (geoOfItem { query := 0, status_success := true }) ∧
    (dictKeys (locate_batch c4ExampleOracle c4ExampleIps).1).length = 150 := by
  have hecho : ∀ k items, c4ExampleOracle k = BatchOutcome.ok items →
      items.map GeoItem.query = (geoBatches (pyDedup c4ExampleIps)).getD k [] := by
    intro k items h
    cases k with
    | zero =>
      have h0 : c4ExampleOracle 0 = BatchOutcome.ok
          ((List.range 100).map (fun q => { query := q, status_success := true })) :=
        rfl
      rw [h0] at h
      injection h with h
      subst h
      decide
    | succ n =>
      simp [c4ExampleOracle] at h
  have h := c4_locate_batch_total c4ExampleIps c4ExampleOracle hecho
  refine ⟨h.1, ?_, ?_, ?_⟩
  · exact h.2.2.1 1 (by decide) 149 (by decide)
  · exact h.2.2.2 0
      ((List.range 100).map (fun q => { query := q, status_success := true }))
      rfl { query := 0, status_success := true } (by decide)
  · have hk : dictKeys (locate_batch c4ExampleOracle c4ExampleIps).1
        = pyDedup c4ExampleIps := by
      rw [locate_batch_results_eq c4ExampleOracle c4ExampleIps hecho]
      rw [dictKeys_geoContribs c4ExampleOracle (geoBatches (pyDedup c4ExampleIps)) 0
        (fun k items hh => hecho k items (by simpa using hh))]
      exact geoBatches_flatten (pyDedup c4ExampleIps)
    rw [hk]
    decide

theorem geoLoop_sleeps {α : Type} [DecidableEq α] (oracle : Nat → BatchOutcome α)
    (batches : List (List α)) :
    ∀ (idx total : Nat) (res : List (α × GeoData α)),
    (geoLoop oracle idx total batches res).2.length = batches.length ∧
    (∀ i, i < batches.length →
      (geoLoop oracle idx total batches res).2.get? i
        = some (isOkB (oracle (idx + i)) && decide (idx + i < total - 1))) := by
  induction batches with
  | nil => intro idx total res; simp [geoLoop]
  | cons b rest ih =>
    intro idx total res
    cases ho : oracle idx with
    | ok items =>
      refine ⟨?_, ?_⟩
      · simp only [geoLoop, ho, List.length_cons]
        exact congrArg (· + 1) (ih (idx + 1) total _).1
      · intro i hi
        cases i with
        | zero =>
          simp [geoLoop, ho, isOkB]
        | succ j =>
          simp only [geoLoop, ho, List.get?_cons_succ]
          rw [(ih (idx + 1) total _).2 j (by simpa using Nat.succ_lt_succ_iff.mp hi)]
          rw [show idx + 1 + j = idx + (j + 1) by omega]
    | fail =>
      refine ⟨?_, ?_⟩
      · simp only [geoLoop, ho, List.length_cons]
        exact congrArg (· + 1) (ih (idx + 1) total _).1
      · intro i hi
        cases i with
        | zero =>
          simp [geoLoop, ho, isOkB]
        | succ j =>
          simp only [geoLoop, ho, List.get?_cons_succ]
          rw [(ih (idx + 1) total _).2 j (by simpa using Nat.succ_lt_succ_iff.mp hi)]
          rw [show idx + 1 + j = idx + (j + 1) by omega]

/-- C6 (amended): the inter-batch sleep runs after batch `i` iff batch `i`'s
bulk query succeeded AND `i` is not the last batch; after a failed batch the
next batch is submitted without any delay (the sleep sits inside the `try`
block, after response processing), and no delay runs before the first batch
or after the last. -/
theorem c6_amended {α : Type} [DecidableEq α] (ips : List α)
    (oracle : Nat → BatchOutcome α) :
    (locate_batch oracle ips).2.length = (geoBatches (pyDedup ips)).length ∧
    (∀ i, i < (geoBatches (pyDedup ips)).length →
      (locate_batch oracle ips).2.get? i
        = some (isOkB (oracle i)
            && decide (i < (geoBatches (pyDedup ips)).length - 1))) := by
  have h := geoLoop_sleeps oracle (geoBatches (pyDedup ips)) 0
    (geoBatches (pyDedup ips)).length []
  refine ⟨h.1, ?_⟩
  intro i hi
  have := h.2 i hi
  simpa using this

set_option maxRecDepth 40000 in
/-- C6 counterexample: with 101 deduplicated addresses (two batches) and the
first batch's query failing, no sleep separates the two consecutive batch
submissions, refuting the claim that the delay is enforced between every pair
of consecutive batches including after a failure. -/
theorem c6_counterexample : ¬ interBatchDelayClaim := by
  intro hcl
  have h := hcl (List.range 101) (fun _ => BatchOutcome.fail) 0 (by decide)
  have h2 : (locate_batch (fun _ => BatchOutcome.fail) (List.range 101)).2.get? 0
      = some false := by decide
  rw [h2] at h
  exact absurd h (by decide)

set_option maxRecDepth 40000 in
/-- Witness for C6 (amended) at a concrete input: 101 addresses, first batch
succeeding (sleep runs after it), second batch failing and last (no sleep). -/
theorem c6_witness :
    (locate_batch (fun i => if i = 0 then BatchOutcome.ok ([] : List (GeoItem Nat))
        else BatchOutcome.fail) (List.range 101)).2.get? 0 = some true ∧
    (locate_batch (fun i => if i = 0 then BatchOutcome.ok ([] : List (GeoItem Nat))
        else BatchOutcome.fail) (List.range 101)).2.get? 1 = some false := by
  have h := c6_amended (List.range 101)
    (fun i => if i = 0 then BatchOutcome.ok ([] : List (GeoItem Nat))
      else BatchOutcome.fail)
  have e0 := h.2 0 (by decide)
  have e1 := h.2 1 (by decide)
  rw [e0, e1]
  refine ⟨?_, ?_⟩ <;> decide

theorem crtshFrom_spec (oracle : Nat → CrtshOutcome) (domain : List Char) :
    ∀ (remaining a : Nat), a + remaining = crtshMaxRetries →
    (0 < remaining → 1 ≤ (crtshFrom oracle domain remaining a).attempts) ∧
    (crtshFrom oracle domain remaining a).attempts ≤ remaining ∧
    (crtshFrom oracle domain remaining a).sleeps.length
      = (crtshFrom oracle domain remaining a).attempts - 1 ∧
    (∀ i, i + 1 < (crtshFrom oracle domain remaining a).attempts →
      crtshCodeTransient (oracle (a + i))) ∧
    (∀ i, i + 1 < (crtshFrom oracle domain remaining a).attempts →
      (crtshFrom oracle domain remaining a).sleeps.get? i
        = some (if is503 (oracle (a + i)) then crtshRetryDelay * (a + i + 1)
            else crtshRetryDelay)) ∧
    (∀ i, i < (crtshFrom oracle domain remaining a).attempts →
      crtshCodeHard (oracle (a + i)) →
      (crtshFrom oracle domain remaining a).attempts = i + 1) ∧
    (∀ i, i < (crtshFrom oracle domain remaining a).attempts →
      a + i < crtshMaxRetries - 1 → crtshCodeTransient (oracle (a + i)) →
      i + 1 < (crtshFrom oracle domain remaining a).attempts) := by
  intro remaining
  induction remaining with
  | zero =>
    intro a _
    simp [crtshFrom]
  | succ rem ih =>
    intro a hsum
    have hsum' : (a + 1) + rem = crtshMaxRetries := by omega
    have ihr := ih (a + 1) hsum'
    cases ho : oracle a with
    | timedOut =>
      by_cases hlt : a < crtshMaxRetries - 1
      · have hbody : crtshFrom oracle domain (rem + 1) a
            = { found := (crtshFrom oracle domain rem (a + 1)).found,
                sleeps := crtshRetryDelay
                  :: (crtshFrom oracle domain rem (a + 1)).sleeps,
                attempts := (crtshFrom oracle domain rem (a + 1)).attempts + 1 } := by
          simp [crtshFrom, ho, hlt]
        have hrem : 0 < rem := by
          simp only [crtshMaxRetries] at hsum hlt
          omega
        have h1 := ihr.1 hrem
        rw [hbody]
        dsimp only
        refine ⟨fun _ => by simp, by simpa using ihr.2.1, ?_, ?_, ?_, ?_, ?_⟩
        · simp only [List.length_cons]
          rw [ihr.2.2.1]
          omega
        · intro i hi
          cases i with
          | zero => exact Or.inl ho
          | succ j =>
            rw [show a + (j + 1) = (a + 1) + j by omega]
            exact ihr.2.2.2.1 j (by simpa using hi)
        · intro i hi
          cases i with
          | zero =>
            simp [Nat.add_zero, ho, is503]
          | succ j =>
            simp only [List.get?_cons_succ]
            rw [ihr.2.2.2.2.1 j (by simpa using hi)]
            rw [show a + (j + 1) = (a + 1) + j by omega]
        · intro i hi hhard
          cases i with
          | zero =>
            exfalso
            rw [Nat.add_zero] at hhard
            rcases hhard with h | ⟨s, body, h, _⟩ | ⟨s, h, _⟩ <;>
              rw [ho] at h <;> cases h
          | succ j =>
            have := ihr.2.2.2.2.2.1 j (by simpa using hi)
              (by rw [show (a + 1) + j = a + (j + 1) by omega]; exact hhard)
            omega
        · intro i hi hbound htr
          cases i with
          | zero => simpa using h1
          | succ j =>
            have := ihr.2.2.2.2.2.2 j (by simpa using hi)
              (by omega)
              (by rw [show (a + 1) + j = a + (j + 1) by omega]; exact htr)
            omega
      · have hbody : crtshFrom oracle domain (rem + 1) a
            = { found := [], sleeps := [], attempts := 1 } := by
          simp [crtshFrom, ho, hlt]
        rw [hbody]
        dsimp only
        refine ⟨fun _ => le_refl 1, by omega, rfl, ?_, ?_, ?_, ?_⟩
        · intro i hi; omega
        · intro i hi; omega
        · intro i hi _; omega
        · intro i hi hbound htr; omega
    | reqError =>
      have hbody : crtshFrom oracle domain (rem + 1) a
          = { found := [], sleeps := [], attempts := 1 } := by
        simp [crtshFrom, ho]
      rw [hbody]
      dsimp only
      refine ⟨fun _ => le_refl 1, by omega, rfl, ?_, ?_, ?_, ?_⟩
      · intro i hi; omega
      · intro i hi; omega
      · intro i hi _; omega
      · intro i hi hbound htr
        exfalso
        have hi0 : i = 0 := by omega
        subst hi0
        rw [Nat.add_zero, ho] at htr
        rcases htr with h | h
        · cases h
        · simp [is503] at h
    | response status body =>
      by_cases h503 : status = 503
      · subst h503
        by_cases hlt : a < crtshMaxRetries - 1
        · have hbody : crtshFrom oracle domain (rem + 1) a
              = { found := (crtshFrom oracle domain rem (a + 1)).found,
                  sleeps := crtshRetryDelay * (a + 1)
                    :: (crtshFrom oracle domain rem (a + 1)).sleeps,
                  attempts := (crtshFrom oracle domain rem (a + 1)).attempts + 1 } := by
            simp [crtshFrom, ho, hlt]
          have hrem : 0 < rem := by
            simp only [crtshMaxRetries] at hsum hlt
            omega
          have h1 := ihr.1 hrem
          rw [hbody]
          dsimp only
          refine ⟨fun _ => by simp, by simpa using ihr.2.1, ?_, ?_, ?_, ?_, ?_⟩
          · simp only [List.length_cons]
            rw [ihr.2.2.1]
            omega
          · intro i hi
            cases i with
            | zero =>
              right
              simp [ho, is503]
            | succ j =>
              rw [show a + (j + 1) = (a + 1) + j by omega]
              exact ihr.2.2.2.1 j (by simpa using hi)
          · intro i hi
            cases i with
            | zero =>
              simp [Nat.add_zero, ho, is503]
            | succ j =>
              simp only [List.get?_cons_succ]
              rw [ihr.2.2.2.2.1 j (by simpa using hi)]
              rw [show a + (j + 1) = (a + 1) + j by omega]
          · intro i hi hhard
            cases i with
            | zero =>
              exfalso
              rw [Nat.add_zero] at hhard
              rcases hhard with h | ⟨s, bd, h, _, hne⟩ | ⟨s, h, hs⟩ <;>
                rw [ho] at h
              · cases h
              · injection h with h1 h2
                exact hne h1.symm
              · injection h with h1 h2
                omega
            | succ j =>
              have := ihr.2.2.2.2.2.1 j (by simpa using hi)
                (by rw [show (a + 1) + j = a + (j + 1) by omega]; exact hhard)
              omega
          · intro i hi hbound htr
            cases i with
            | zero => simpa using h1
            | succ j =>
              have := ihr.2.2.2.2.2.2 j (by simpa using hi)
                (by omega)
                (by rw [show (a + 1) + j = a + (j + 1) by omega]; exact htr)
              omega
        · have hbody : crtshFrom oracle domain (rem + 1) a
              = { found := [], sleeps := [], attempts := 1 } := by
            simp [crtshFrom, ho, hlt]
          rw [hbody]
          dsimp only
          refine ⟨fun _ => le_refl 1, by omega, rfl, ?_, ?_, ?_, ?_⟩
          · intro i hi; omega
          · intro i hi; omega
          · intro i hi _; omega
          · intro i hi hbound htr; omega
      · have hone : ∃ found, crtshFrom oracle domain (rem + 1) a
            = { found := found, sleeps := [], attempts := 1 } := by
          by_cases h400 : 400 ≤ status
          · exact ⟨[], by simp [crtshFrom, ho, h503, h400]⟩
          · cases body with
            | empty => exact ⟨[], by simp [crtshFrom, ho, h503, h400]⟩
            | invalidJson => exact ⟨[], by simp [crtshFrom, ho, h503, h400]⟩
            | json nameValues =>
              exact ⟨parseCrtEntries nameValues domain,
                by simp [crtshFrom, ho, h503, h400]⟩
        obtain ⟨found, hbody⟩ := hone
        rw [hbody]
        dsimp only
        refine ⟨fun _ => le_refl 1, by omega, rfl, ?_, ?_, ?_, ?_⟩
        · intro i hi; omega
        · intro i hi; omega
        · intro i hi _; omega
        · intro i hi hbound htr
          exfalso
          have hi0 : i = 0 := by omega
          subst hi0
          rw [Nat.add_zero, ho] at htr
          rcases htr with h | h
          · cases h
          · simp [is503] at h
            exact h503 h

/-- C5 (amended): when querying crt.sh, up to 3 attempts are made; an HTTP
503 on a non-final attempt is retried with an increasing backoff delay
`RETRY_DELAY * attemptNumber`; a timeout on a non-final attempt is retried
with the constant base delay `RETRY_DELAY` (the code sleeps
`self.RETRY_DELAY` there, not an increasing delay); a hard error — a
requests-level failure, any HTTP status ≥ 400 other than 503 (including
other 5xx and 429), or an invalid JSON payload — ends the provider
immediately without exhausting the retries. -/
theorem c5_amended (oracle : Nat → CrtshOutcome) (domain : List Char) :
    1 ≤ (query_crtsh oracle domain).attempts ∧
    (query_crtsh oracle domain).attempts ≤ crtshMaxRetries ∧
    (query_crtsh oracle domain).sleeps.length
      = (query_crtsh oracle domain).attempts - 1 ∧
    (∀ i, i + 1 < (query_crtsh oracle domain).attempts →
      crtshCodeTransient (oracle i)) ∧
    (∀ i, i + 1 < (query_crtsh oracle domain).attempts →
      (query_crtsh oracle domain).sleeps.get? i
        = some (if is503 (oracle i) then crtshRetryDelay * (i + 1)
            else crtshRetryDelay)) ∧
    (∀ i, i < (query_crtsh oracle domain).attempts →
      crtshCodeHard (oracle i) → (query_crtsh oracle domain).attempts = i + 1) ∧
    (∀ i, i < (query_crtsh oracle domain).attempts →
      i < crtshMaxRetries - 1 → crtshCodeTransient (oracle i) →
      i + 1 < (query_crtsh oracle domain).attempts) := by
  have h := crtshFrom_spec oracle domain crtshMaxRetries 0 (by omega)
  refine ⟨h.1 (by decide), h.2.1, h.2.2.1, ?_, ?_, ?_, ?_⟩
  · intro i hi
    simpa using h.2.2.2.1 i hi
  · intro i hi
    simpa using h.2.2.2.2.1 i hi
  · intro i hi hh
    exact h.2.2.2.2.2.1 i hi (by simpa using hh)
  · intro i hi hb ht
    exact h.2.2.2.2.2.2 i hi (by simpa using hb) (by simpa using ht)

/-- C5 counterexample: with every attempt timing out, the sleep after the
second attempt is the constant `RETRY_DELAY` = 2, not the claimed
`RETRY_DELAY * attemptNumber` = 4, refuting the claimed retry policy. -/
theorem c5_counterexample : ¬ crtshRetryClaim := by
  intro h
  obtain ⟨-, h2, -⟩ := h (fun _ => CrtshOutcome.timedOut) []
  have h3 := h2 1 (by decide) (by decide) (Or.inl rfl)
  have h4 := h3.2
  rw [show (query_crtsh (fun _ => CrtshOutcome.timedOut) []).sleeps.get? 1
      = some 2 from by decide] at h4
  exact absurd h4 (by decide)

/-- Witness for C5 (amended) at a concrete oracle: every attempt times out;
three attempts are made and the first retry sleeps the base delay. -/
theorem c5_witness :
    1 ≤ (query_crtsh (fun _ => CrtshOutcome.timedOut) "example.com".data).attempts ∧
    (query_crtsh (fun _ => CrtshOutcome.timedOut) "example.com".data).attempts
      ≤ crtshMaxRetries ∧
    (query_crtsh (fun _ => CrtshOutcome.timedOut) "example.com".data).sleeps.get? 0
      = some crtshRetryDelay := by
  have h := c5_amended (fun _ => CrtshOutcome.timedOut) "example.com".data
  refine ⟨h.1, h.2.1, ?_⟩
  have h5 := h.2.2.2.2.1 0 (by decide)
  rw [h5]
  decide

theorem clean_subdomain_some (nm domain m : List Char)
    (h : clean_subdomain nm domain = some m) :
    domain.isSuffixOf m = true ∧ m ≠ domain ∧ matchesDomainChars m = true := by
  simp only [clean_subdomain] at h
  split_ifs at h <;> try cases h
  all_goals
    exact ⟨by assumption, by assumption, by assumption⟩

theorem mem_setAdd {α : Type} [DecidableEq α] (acc : List α) (x y : α)
    (h : x ∈ setAdd acc y) : x ∈ acc ∨ x = y := by
  simp only [setAdd] at h
  split_ifs at h with hy
  · exact Or.inl h
  · rcases List.mem_append.mp h with h' | h'
    · exact Or.inl h'
    · exact Or.inr (by simpa using h')

theorem mem_addCleaned (domain : List Char) (acc : List (List Char))
    (nm x : List Char) (h : x ∈ addCleaned domain acc nm) :
    x ∈ acc ∨ clean_subdomain nm domain = some x := by
  cases hc : clean_subdomain nm domain with
  | none =>
    simp only [addCleaned, hc] at h
    exact Or.inl h
  | some c =>
    simp only [addCleaned, hc] at h
    rcases mem_setAdd acc x c h with h' | h'
    · exact Or.inl h'
    · exact Or.inr (by rw [h'])

theorem mem_foldl_addCleaned (domain : List Char) (l : List (List Char)) :
    ∀ (acc : List (List Char)) (x : List Char),
    x ∈ l.foldl (addCleaned domain) acc →
    x ∈ acc ∨ ∃ raw, clean_subdomain raw domain = some x := by
  induction l with
  | nil => intro acc x h; exact Or.inl h
  | cons nm rest ih =>
    intro acc x h
    rcases ih (addCleaned domain acc nm) x h with h' | h'
    · rcases mem_addCleaned domain acc nm x h' with h'' | h''
      · exact Or.inl h''
      · exact Or.inr ⟨nm, h''⟩
    · exact Or.inr h'

theorem mem_parseCrtEntries (nameValues : List (List Char)) (domain x : List Char)
    (h : x ∈ parseCrtEntries nameValues domain) :
    ∃ raw, clean_subdomain raw domain = some x := by
  simp only [parseCrtEntries] at h
  suffices hgen : ∀ (nvs : List (List Char)) (acc : List (List Char)),
      x ∈ nvs.foldl (fun a nv => (splitOnChar '\n' nv).foldl (addCleaned domain) a) acc →
      x ∈ acc ∨ ∃ raw, clean_subdomain raw domain = some x by
    rcases hgen nameValues [] h with h' | h'
    · cases h'
    · exact h'
  intro nvs
  induction nvs with
  | nil => intro acc h'; exact Or.inl h'
  | cons nv rest ih =>
    intro acc h'
    rcases ih _ h' with h'' | h''
    · exact mem_foldl_addCleaned domain _ _ _ h''
    · exact Or.inr h''

theorem mem_crtshFrom_found (oracle : Nat → CrtshOutcome) (domain : List Char) :
    ∀ (remaining a : Nat) (x : List Char),
    x ∈ (crtshFrom oracle domain remaining a).found →
    ∃ raw, clean_subdomain raw domain = some x := by
  intro remaining
  induction remaining with
  | zero => intro a x h; simp [crtshFrom] at h
  | succ rem ih =>
    intro a x h
    simp only [crtshFrom] at h
    cases ho : oracle a with
    | timedOut =>
      rw [ho] at h
      dsimp only at h
      by_cases hlt : a < crtshMaxRetries - 1
      · rw [if_pos hlt] at h
        exact ih (a + 1) x h
      · rw [if_neg hlt] at h
        cases h
    | reqError =>
      rw [ho] at h
      cases h
    | response status body =>
      rw [ho] at h
      dsimp only at h
      by_cases h503 : status = 503
      · rw [if_pos h503] at h
        by_cases hlt : a < crtshMaxRetries - 1
        · rw [if_pos hlt] at h
          exact ih (a + 1) x h
        · rw [if_neg hlt] at h
          cases h
      · rw [if_neg h503] at h
        by_cases h400 : 400 ≤ status
        · rw [if_pos h400] at h
          cases h
        · rw [if_neg h400] at h
          cases body with
          | empty => cases h
          | invalidJson => cases h
          | json nameValues => exact mem_parseCrtEntries nameValues domain x h

theorem mem_query_certspotter (o : CertspotterOutcome) (domain x : List Char)
    (h : x ∈ query_certspotter o domain) :
    ∃ raw, clean_subdomain raw domain = some x := by
  cases o with
  | failure => cases h
  | ok entries =>
    simp only [query_certspotter] at h
    suffices hgen : ∀ (es : List (List (List Char))) (acc : List (List Char)),
        x ∈ es.foldl (fun a dnsNames => dnsNames.foldl (addCleaned domain) a) acc →
        x ∈ acc ∨ ∃ raw, clean_subdomain raw domain = some x by
      rcases hgen entries [] h with h' | h'
      · cases h'
      · exact h'
    intro es
    induction es with
    | nil => intro acc h'; exact Or.inl h'
    | cons dnsNames rest ih =>
      intro acc h'
      rcases ih _ h' with h'' | h''
      · exact mem_foldl_addCleaned domain _ _ _ h''
      · exact Or.inr h''

theorem mem_query_hackertarget (o : HackertargetOutcome) (domain x : List Char)
    (h : x ∈ query_hackertarget o domain) :
    ∃ raw, clean_subdomain raw domain = some x := by
  cases o with
  | failure => cases h
  | ok body =>
    simp only [query_hackertarget] at h
    suffices hgen : ∀ (lines : List (List Char)) (acc : List (List Char)),
        x ∈ lines.foldl
          (fun acc line =>
            if (',' ∈ line) ∧ ¬ containsSub "error".data (lowerStr line) then
              addCleaned domain acc (stripStr (line.takeWhile (fun c => c ≠ ',')))
            else acc) acc →
        x ∈ acc ∨ ∃ raw, clean_subdomain raw domain = some x by
      rcases hgen _ [] h with h' | h'
      · cases h'
      · exact h'
    intro lines
    induction lines with
    | nil => intro acc h'; exact Or.inl h'
    | cons line rest ih =>
      intro acc h'
      rcases ih _ h' with h'' | h''
      · dsimp only at h''
        split_ifs at h'' with hcond
        · rcases mem_addCleaned domain acc _ x h'' with h3 | h3
          · exact Or.inl h3
          · exact Or.inr ⟨_, h3⟩
        · exact Or.inl h''
      · exact Or.inr h''

theorem mem_setUnion {α : Type} [DecidableEq α] (s t : List α) (x : α)
    (h : x ∈ setUnion s t) : x ∈ s ∨ x ∈ t := by
  simpa [setUnion, mem_foldl_setAdd] using h

theorem mem_ct_enumerate_clean (crtO : Nat → CrtshOutcome)
    (csO : CertspotterOutcome) (htO : HackertargetOutcome)
    (domain name : List Char) (h : name ∈ ct_enumerate crtO csO htO domain) :
    ∃ raw, clean_subdomain raw domain = some name := by
  simp only [ct_enumerate] at h
  have hcrt : ∀ y, y ∈ (query_crtsh crtO domain).found →
      ∃ raw, clean_subdomain raw domain = some y :=
    fun y hy => mem_crtshFrom_found crtO domain crtshMaxRetries 0 y hy
  split_ifs at h with h10 h5 h5'
  · rcases mem_setUnion _ _ _ h with h' | h'
    · rcases mem_setUnion _ _ _ h' with h'' | h''
      · exact hcrt name h''
      · exact mem_query_certspotter csO domain name h''
    · exact mem_query_hackertarget htO domain name h'
  · rcases mem_setUnion _ _ _ h with h' | h'
    · exact hcrt name h'
    · exact mem_query_certspotter csO domain name h'
  · rcases mem_setUnion _ _ _ h with h' | h'
    · exact hcrt name h'
    · exact mem_query_hackertarget htO domain name h'
  · exact hcrt name h

/-- C7 (amended): every name returned by `enumerate` is normalized and
validated by `_clean_subdomain`: it ends with the target domain (plain suffix
match, a dot boundary is NOT required), is never equal to the bare target, and
matches the `[a-z0-9][a-z0-9\-.]*[a-z0-9]` pattern. -/
theorem c7_amended (crtO : Nat → CrtshOutcome) (csO : CertspotterOutcome)
    (htO : HackertargetOutcome) (domain name : List Char)
    (h : name ∈ ct_enumerate crtO csO htO domain) :
    domain.isSuffixOf name = true ∧ name ≠ domain ∧
      matchesDomainChars name = true := by
  obtain ⟨raw, hraw⟩ := mem_ct_enumerate_clean crtO csO htO domain name h
  exact clean_subdomain_some raw domain name hraw

/-- C7 counterexample: for target `example.com` a crt.sh entry
`notexample.com` is accepted by `_clean_subdomain` (suffix check only) and
returned by `enumerate`, yet it is not of the form
`<nonempty-label-sequence>.example.com`, refuting the claim that every
returned name lies strictly beneath the target. -/
theorem c7_counterexample : ¬ ctProperSubdomainClaim := by
  intro hcl
  have hmem : "notexample.com".data ∈ ct_enumerate
      (fun _ => CrtshOutcome.response 200 (CrtshBody.json ["notexample.com".data]))
      CertspotterOutcome.failure HackertargetOutcome.failure
      "example.com".data := by decide
  have hben := hcl _ _ _ _ _ hmem
  obtain ⟨p, hp, heq⟩ := hben
  have hlen : p.length = 2 := by
    have := congrArg List.length heq
    simp [List.length_append] at this
    omega
  have hdrop := congrArg (List.drop 2) heq
  rw [show (2 : Nat) = p.length from hlen.symm] at hdrop
  rw [List.drop_left] at hdrop
  rw [hlen] at hdrop
  exact absurd hdrop (by decide)

/-- Witness for C7 (amended) at a concrete input: `www.example.com` is
enumerated and satisfies all three amended invariants. -/
theorem c7_witness :
    ("www.example.com".data ∈ ct_enumerate
      (fun _ => CrtshOutcome.response 200 (CrtshBody.json ["www.example.com".data]))
      CertspotterOutcome.failure HackertargetOutcome.failure
      "example.com".data) ∧
    ("example.com".data.isSuffixOf "www.example.com".data = true ∧
      "www.example.com".data ≠ "example.com".data ∧
      matchesDomainChars "www.example.com".data = true) := by
  have hmem : "www.example.com".data ∈ ct_enumerate
      (fun _ => CrtshOutcome.response 200 (CrtshBody.json ["www.example.com".data]))
      CertspotterOutcome.failure HackertargetOutcome.failure
      "example.com".data := by decide
  exact ⟨hmem, c7_amended _ _ _ _ _ hmem⟩

theorem rbFold_lookup_stable (worker : List Char → Except (List Char) DNSResult)
    (subdomains : List (List Char)) (order : List Nat) (x : List Char) :
    ∀ (acc : List (List Char × DNSResult)),
    (∀ i ∈ order, subdomains.get? i ≠ some x) →
    dictLookup x (order.foldl
        (fun results i =>
          match subdomains.get? i with
          | some sub => dictInsert sub (futureRecord sub (worker sub)) results
          | none => results)
        acc) = dictLookup x acc := by
  induction order with
  | nil => intro acc _; rfl
  | cons j rest ih =>
    intro acc hno
    simp only [List.foldl_cons]
    cases hj : subdomains.get? j with
    | none =>
      exact ih acc (fun i hi => hno i (List.mem_cons_of_mem _ hi))
    | some s =>
      rw [ih _ (fun i hi => hno i (List.mem_cons_of_mem _ hi))]
      refine dictLookup_dictInsert_ne s x _ acc ?_
      intro hxs
      exact hno j (List.mem_cons_self _ _) (by rw [hj, hxs])

theorem rbFold_lookup_mem (worker : List Char → Except (List Char) DNSResult)
    (subdomains : List (List Char)) (order : List Nat) (x : List Char) :
    ∀ (acc : List (List Char × DNSResult)),
    (∃ i ∈ order, subdomains.get? i = some x) →
    dictLookup x (order.foldl
        (fun results i =>
          match subdomains.get? i with
          | some sub => dictInsert sub (futureRecord sub (worker sub)) results
          | none => results)
        acc) = some (futureRecord x (worker x)) := by
  induction order with
  | nil => rintro acc ⟨i, hi, -⟩; cases hi
  | cons j rest ih =>
    rintro acc ⟨i, hi, hix⟩
    simp only [List.foldl_cons]
    by_cases hrest : ∃ i ∈ rest, subdomains.get? i = some x
    · exact ih _ hrest
    · have hij : i = j := by
        rcases List.mem_cons.mp hi with rfl | hi'
        · rfl
        · exact absurd ⟨i, hi', hix⟩ hrest
      subst hij
      rw [hix]
      rw [rbFold_lookup_stable worker subdomains rest x _
        (fun i' hi' hix' => hrest ⟨i', hi', hix'⟩)]
      exact dictLookup_dictInsert_self x _ acc

theorem dictLookup_some_mem {α β : Type} [DecidableEq α] (k : α) (v : β)
    (d : List (α × β)) (h : dictLookup k d = some v) : (k, v) ∈ d := by
  induction d with
  | nil => cases h
  | cons kv rest ih =>
    obtain ⟨k', v'⟩ := kv
    by_cases hk : k = k'
    · subst hk
      simp only [dictLookup, if_pos rfl] at h
      injection h with h
      subst h
      exact List.mem_cons_self _ _
    · simp only [dictLookup, if_neg hk] at h
      exact List.mem_cons_of_mem _ (ih h)

theorem resolve_bulk_lookup (cfg : DNSResolverCfg)
    (worker : List Char → Except (List Char) DNSResult)
    (subdomains : List (List Char)) (order : List Nat) (x : List Char)
    (horder : order.Perm (List.range subdomains.length))
    (hx : x ∈ subdomains) :
    dictLookup x (resolve_bulk cfg worker subdomains order)
      = some (futureRecord x (worker x)) := by
  rw [rb_step_eq]
  refine rbFold_lookup_mem worker subdomains order x [] ?_
  obtain ⟨i, hix⟩ := List.mem_iff_get?.mp hx
  have hi : i < subdomains.length := by
    by_contra hle
    rw [List.get?_eq_none.mpr (by omega)] at hix
    cases hix
  exact ⟨i, horder.mem_iff.mpr (List.mem_range.mpr hi), hix⟩

/-- C9: if the enumerator yields an empty set, or no resolved name is alive,
the pipeline returns `None` after only the phases reached so far — without
invoking geolocation, aggregation, or rendering — and `main` maps that `None`
to the insufficient-data outcome (exit 1), which is distinct from a crash and
from normal completion. -/
theorem c9_pipeline_empty (rawTarget : List Char)
    (crtO : Nat → CrtshOutcome) (csO : CertspotterOutcome)
    (htO : HackertargetOutcome) (cfg : DNSResolverCfg)
    (aO : List Char → ARecOutcome) (cO : List Char → CnameOutcome)
    (order : List Nat) (geoO : Nat → BatchOutcome (List Char)) (noMap : Bool) :
    (ct_enumerate crtO csO htO (recon_target rawTarget) = [] →
      run_reconnaissance rawTarget crtO csO htO cfg aO cO order geoO noMap
        = (none, [Phase.enumeration]) ∧
      Phase.geolocation
        ∉ (run_reconnaissance rawTarget crtO csO htO cfg aO cO order geoO noMap).2 ∧
      Phase.aggregation
        ∉ (run_reconnaissance rawTarget crtO csO htO cfg aO cO order geoO noMap).2 ∧
      Phase.rendering
        ∉ (run_reconnaissance rawTarget crtO csO htO cfg aO cO order geoO noMap).2) ∧
    (ct_enumerate crtO csO htO (recon_target rawTarget) ≠ [] →
      (∀ sub, aliveCond (resolve_single sub (aO sub) (cO sub)) = false) →
      run_reconnaissance rawTarget crtO csO htO cfg aO cO order geoO noMap
        = (none, [Phase.enumeration, Phase.resolution]) ∧
      Phase.geolocation
        ∉ (run_reconnaissance rawTarget crtO csO htO cfg aO cO order geoO noMap).2 ∧
      Phase.aggregation
        ∉ (run_reconnaissance rawTarget crtO csO htO cfg aO cO order geoO noMap).2 ∧
      Phase.rendering
        ∉ (run_reconnaissance rawTarget crtO csO htO cfg aO cO order geoO noMap).2) ∧
    mainOutcome (RunTermination.value none) = MainOutcome.insufficientData ∧
    (∀ m, MainOutcome.insufficientData ≠ MainOutcome.crashed m) ∧
    MainOutcome.insufficientData ≠ MainOutcome.completed := by
  refine ⟨?_, ?_, rfl, fun m => by simp, by simp⟩
  · intro hempty
    have hrun : run_reconnaissance rawTarget crtO csO htO cfg aO cO order geoO
        noMap = (none, [Phase.enumeration]) := by
      simp only [run_reconnaissance, hempty, List.isEmpty_nil, if_true]
    refine ⟨hrun, ?_, ?_, ?_⟩ <;> rw [hrun] <;> decide
  · intro hne hdead
    have hEfalse : (ct_enumerate crtO csO htO (recon_target rawTarget)).isEmpty
        = false := by
      simpa [List.isEmpty_iff] using hne
    have hfilter : (resolve_bulk cfg
        (fun sub => Except.ok (resolve_single sub (aO sub) (cO sub)))
        (recon_subdomain_list (recon_target rawTarget)
          (ct_enumerate crtO csO htO (recon_target rawTarget)))
        order).filter (fun kv => aliveCond kv.2) = [] := by
      refine List.filter_eq_nil_iff.mpr ?_
      intro kv hkv
      rw [rb_step_eq] at hkv
      have hval := vals_rbFold
        (fun sub => Except.ok (resolve_single sub (aO sub) (cO sub)))
        (recon_subdomain_list (recon_target rawTarget)
          (ct_enumerate crtO csO htO (recon_target rawTarget)))
        order [] (by simp) kv hkv
      rw [hval]
      simp only [futureRecord]
      simp [hdead kv.1]
    have hrun : run_reconnaissance rawTarget crtO csO htO cfg aO cO order geoO
        noMap = (none, [Phase.enumeration, Phase.resolution]) := by
      simp only [run_reconnaissance, hEfalse, Bool.false_eq_true, if_false,
        hfilter, List.isEmpty_nil, if_true]
    refine ⟨hrun, ?_, ?_, ?_⟩ <;> rw [hrun] <;> decide

/-- Witness for C9 at two concrete runs: one where every CT source fails
(empty enumeration) and one where the only enumerated name resolves as
NXDOMAIN (no live host). -/
theorem c9_witness :
    run_reconnaissance "example.com".data (fun _ => CrtshOutcome.reqError)
        CertspotterOutcome.failure HackertargetOutcome.failure
        (DNSResolverCfg.mk 3 50) (fun _ => ARecOutcome.nxdomain)
        (fun _ => CnameOutcome.failed) [] (fun _ => BatchOutcome.fail) false
      = (none, [Phase.enumeration]) ∧
    run_reconnaissance "example.com".data
        (fun _ => CrtshOutcome.response 200
          (CrtshBody.json ["www.example.com".data]))
        CertspotterOutcome.failure HackertargetOutcome.failure
        (DNSResolverCfg.mk 3 50) (fun _ => ARecOutcome.nxdomain)
        (fun _ => CnameOutcome.failed) [] (fun _ => BatchOutcome.fail) false
      = (none, [Phase.enumeration, Phase.resolution]) := by
  constructor
  · exact ((c9_pipeline_empty "example.com".data (fun _ => CrtshOutcome.reqError)
      CertspotterOutcome.failure HackertargetOutcome.failure
      (DNSResolverCfg.mk 3 50) (fun _ => ARecOutcome.nxdomain)
      (fun _ => CnameOutcome.failed) [] (fun _ => BatchOutcome.fail) false).1
      (by decide)).1
  · exact ((c9_pipeline_empty "example.com".data
      (fun _ => CrtshOutcome.response 200
        (CrtshBody.json ["www.example.com".data]))
      CertspotterOutcome.failure HackertargetOutcome.failure
      (DNSResolverCfg.mk 3 50) (fun _ => ARecOutcome.nxdomain)
      (fun _ => CnameOutcome.failed) [] (fun _ => BatchOutcome.fail) false).2.1
      (by decide) (fun _ => rfl)).1

theorem target_not_in_ct_enumerate (crtO : Nat → CrtshOutcome)
    (csO : CertspotterOutcome) (htO : HackertargetOutcome)
    (domain : List Char) : domain ∉ ct_enumerate crtO csO htO domain := by
  intro hmem
  obtain ⟨raw, hraw⟩ := mem_ct_enumerate_clean crtO csO htO domain domain hmem
  exact (clean_subdomain_some raw domain domain hraw).2.1 rfl

theorem target_mem_recon_subdomain_list (target : List Char)
    (ctSet : List (List Char)) : target ∈ recon_subdomain_list target ctSet := by
  unfold recon_subdomain_list
  refine (List.perm_insertionSort _ _).mem_iff.mpr ?_
  by_cases h : target ∈ ctSet
  · simp [h]
  · simp [h]

/-- C10: `enumerate` never returns the bare target domain (its
`_clean_subdomain` rejects the name equal to the domain), yet the
orchestrator always inserts the bare target into the name list handed to the
resolver; consequently, whenever the target itself resolves as alive, a
record for the bare target appears in the final aggregated output. -/
theorem c10_target_in_output :
    (∀ (crtO : Nat → CrtshOutcome) (csO : CertspotterOutcome)
      (htO : HackertargetOutcome) (domain : List Char),
      domain ∉ ct_enumerate crtO csO htO domain) ∧
    (∀ (target : List Char) (ctSet : List (List Char)),
      target ∈ recon_subdomain_list target ctSet) ∧
    (∀ (rawTarget : List Char) (crtO : Nat → CrtshOutcome)
      (csO : CertspotterOutcome) (htO : HackertargetOutcome)
      (cfg : DNSResolverCfg) (aO : List Char → ARecOutcome)
      (cO : List Char → CnameOutcome) (order : List Nat)
      (geoO : Nat → BatchOutcome (List Char)) (noMap : Bool),
      ct_enumerate crtO csO htO (recon_target rawTarget) ≠ [] →
      order.Perm (List.range (recon_subdomain_list (recon_target rawTarget)
        (ct_enumerate crtO csO htO (recon_target rawTarget))).length) →
      aliveCond (resolve_single (recon_target rawTarget)
        (aO (recon_target rawTarget)) (cO (recon_target rawTarget))) = true →
      ∃ records,
        (run_reconnaissance rawTarget crtO csO htO cfg aO cO order geoO
          noMap).1 = some records ∧
        ∃ rec ∈ records, rec.subdomain = recon_target rawTarget) := by
  refine ⟨target_not_in_ct_enumerate, target_mem_recon_subdomain_list, ?_⟩
  intro rawTarget crtO csO htO cfg aO cO order geoO noMap hne hperm halive
  have hEfalse : (ct_enumerate crtO csO htO (recon_target rawTarget)).isEmpty
      = false := by
    simpa [List.isEmpty_iff] using hne
  have hlookup : dictLookup (recon_target rawTarget)
      (resolve_bulk cfg
        (fun sub => Except.ok (resolve_single sub (aO sub) (cO sub)))
        (recon_subdomain_list (recon_target rawTarget)
          (ct_enumerate crtO csO htO (recon_target rawTarget)))
        order)
      = some (resolve_single (recon_target rawTarget)
          (aO (recon_target rawTarget)) (cO (recon_target rawTarget))) :=
    resolve_bulk_lookup cfg _ _ order (recon_target rawTarget) hperm
      (target_mem_recon_subdomain_list _ _)
  have hmemD := dictLookup_some_mem _ _ _ hlookup
  have hmemA : (recon_target rawTarget,
      resolve_single (recon_target rawTarget) (aO (recon_target rawTarget))
        (cO (recon_target rawTarget)))
      ∈ (resolve_bulk cfg
        (fun sub => Except.ok (resolve_single sub (aO sub) (cO sub)))
        (recon_subdomain_list (recon_target rawTarget)
          (ct_enumerate crtO csO htO (recon_target rawTarget)))
        order).filter (fun kv => aliveCond kv.2) :=
    List.mem_filter.mpr ⟨hmemD, by simpa using halive⟩
  have hAfalse : ((resolve_bulk cfg
      (fun sub => Except.ok (resolve_single sub (aO sub) (cO sub)))
      (recon_subdomain_list (recon_target rawTarget)
        (ct_enumerate crtO csO htO (recon_target rawTarget)))
      order).filter (fun kv => aliveCond kv.2)).isEmpty = false := by
    cases hfoo : (resolve_bulk cfg
        (fun sub => Except.ok (resolve_single sub (aO sub) (cO sub)))
        (recon_subdomain_list (recon_target rawTarget)
          (ct_enumerate crtO csO htO (recon_target rawTarget)))
        order).filter (fun kv => aliveCond kv.2) with
    | nil =>
      rw [hfoo] at hmemA
      cases hmemA
    | cons a t => rfl
  simp only [run_reconnaissance, hEfalse, Bool.false_eq_true, if_false,
    hAfalse]
  exact ⟨_, rfl, _, List.mem_map_of_mem _ hmemA, rfl⟩

/-- Witness for C10 at a concrete run: the target `example.com` is not
enumerated but is resolved, is alive at 203.0.113.5, and appears in the
aggregated records. -/
theorem c10_witness :
    ("example.com".data ∉ ct_enumerate
      (fun _ => CrtshOutcome.response 200
        (CrtshBody.json ["www.example.com".data]))
      CertspotterOutcome.failure HackertargetOutcome.failure
      "example.com".data) ∧
    (∃ records,
      (run_reconnaissance "example.com".data
        (fun _ => CrtshOutcome.response 200
          (CrtshBody.json ["www.example.com".data]))
        CertspotterOutcome.failure HackertargetOutcome.failure
        (DNSResolverCfg.mk 3 50)
        (fun _ => ARecOutcome.answers "203.0.113.5".data)
        (fun _ => CnameOutcome.failed) [0, 1] (fun _ => BatchOutcome.fail)
        true).1 = some records ∧
      ∃ rec ∈ records, rec.subdomain = recon_target "example.com".data) := by
  constructor
  · exact c10_target_in_output.1 _ _ _ _
  · exact c10_target_in_output.2.2 "example.com".data
      (fun _ => CrtshOutcome.response 200
        (CrtshBody.json ["www.example.com".data]))
      CertspotterOutcome.failure HackertargetOutcome.failure
      (DNSResolverCfg.mk 3 50)
      (fun _ => ARecOutcome.answers "203.0.113.5".data)
      (fun _ => CnameOutcome.failed) [0, 1] (fun _ => BatchOutcome.fail) true
      (by decide) (by decide) (by decide)
